import Mathlib

/-
Verification of the epoch-scheduled matching pipeline of tsinfer
(`tsinfer/inference.py`): the `ResultBuffer` record batches, the epoch
partitioning of the `AncestorMatcher`, the epoch-commit logic, the
single-threaded driver loop, the checkpoint/resume arithmetic, the
worker-pool dispatch decision and the worker loop.

The embedding is shallow: the numpy arrays of `ResultBuffer` are modelled
as lists of records (the four parallel edge columns become a list of
`EdgeRec`, the three mutation columns a list of `MutRec`); `num_edges` is
the length of the record list, and the backing capacity (`max_edges`,
`max_mutations`) is tracked as a number, since the array contents beyond
the live prefix are uninitialized (`np.empty`) and never observable
through the public views.  Stores into the fixed-width numpy dtypes
(uint32 for left/right/site, int32 for parent/child/node, int8 for
derived_state) are modelled by explicit wrap-around on Int.  Python
`assert` failures, `ValueError`, numpy broadcast errors, `IndexError` and
`StopIteration` are all modelled as `Except.error`.
-/

def UNKNOWN_ALLELE : Nat := 255

/-- Store of an Int into a numpy uint32 cell (wrap modulo 2^32). -/
def wrapU32 (x : Int) : Int := x % (2 ^ 32 : Int)

/-- Store of an Int into a numpy int32 cell (two's complement wrap). -/
def wrapI32 (x : Int) : Int := (x + 2 ^ 31) % (2 ^ 32 : Int) - 2 ^ 31

/-- Store of an Int into a numpy int8 cell (two's complement wrap). -/
def wrapI8 (x : Int) : Int := (x + 2 ^ 7) % (2 ^ 8 : Int) - 2 ^ 7

/-- One row of the four parallel edge columns of a `ResultBuffer`
(`__left`, `__right`, `__parent`, `__child` in `inference.py`). -/
structure EdgeRec where
  left : Int
  right : Int
  parent : Int
  child : Int
deriving DecidableEq, Repr

/-- One row of the three parallel mutation columns of a `ResultBuffer`
(`__site`, `__node`, `__derived_state` in `inference.py`). -/
structure MutRec where
  site : Int
  node : Int
  derived_state : Int
deriving DecidableEq, Repr

/-- Elementwise store of an edge row into the dtyped columns
(uint32, uint32, int32, int32). -/
def storeEdge (l r p c : Int) : EdgeRec :=
  ⟨wrapU32 l, wrapU32 r, wrapI32 p, wrapI32 c⟩

/-- Elementwise store of a mutation row into the dtyped columns
(uint32, int32, int8). -/
def storeMut (s n d : Int) : MutRec :=
  ⟨wrapU32 s, wrapI32 n, wrapI8 d⟩

/-- Zip four equal-length columns into edge rows with a given row builder.
Extra elements of longer columns are dropped (all call sites pass
equal-length columns, checked by the `assert`s of `add_edges`). -/
def zipEdge (f : Int → Int → Int → Int → EdgeRec) :
    List Int → List Int → List Int → List Int → List EdgeRec
  | l :: ls, r :: rs, p :: ps, c :: cs => f l r p c :: zipEdge f ls rs ps cs
  | _, _, _, _ => []

/-- Zip three equal-length columns into mutation rows. -/
def zipMut (f : Int → Int → Int → MutRec) :
    List Int → List Int → List Int → List MutRec
  | s :: ss, n :: ns, d :: ds => f s n d :: zipMut f ss ns ds
  | _, _, _ => []

/-- An argument that numpy broadcasting accepts for the `child` / `node` /
`derived_state` parameters: either a scalar broadcast across the batch or
a parallel array of the batch size. -/
inductive ColArg where
  | scalar (v : Int)
  | array (vs : List Int)
deriving DecidableEq, Repr

/-- Numpy broadcast of a `ColArg` to a batch of size `n`: a scalar is
replicated, an array must already have length `n` (otherwise the
assignment raises, modelled as `none`). -/
def ColArg.broadcast : ColArg → Nat → Option (List Int)
  | ColArg.scalar v, n => some (List.replicate n v)
  | ColArg.array vs, n => if vs.length = n then some vs else none

/-- `ResultBuffer` (`inference.py:676-827`): two independently growable
record batches (edges, mutations).  `edges` / `muts` hold the live
records (source: the first `num_edges` / `num_mutations` rows of the
backing arrays); `max_edges` / `max_mutations` are the backing
capacities. -/
structure ResultBuffer where
  chunk_size : Nat
  edges : List EdgeRec
  max_edges : Nat
  muts : List MutRec
  max_mutations : Nat
deriving DecidableEq, Repr

def ResultBuffer.num_edges (b : ResultBuffer) : Nat := b.edges.length

def ResultBuffer.num_mutations (b : ResultBuffer) : Nat := b.muts.length

/-- The `left` view: `self.__left[:self.num_edges]`. -/
def ResultBuffer.left (b : ResultBuffer) : List Int := b.edges.map EdgeRec.left

/-- The `right` view. -/
def ResultBuffer.right (b : ResultBuffer) : List Int := b.edges.map EdgeRec.right

/-- The `parent` view. -/
def ResultBuffer.parent (b : ResultBuffer) : List Int := b.edges.map EdgeRec.parent

/-- The `child` view. -/
def ResultBuffer.child (b : ResultBuffer) : List Int := b.edges.map EdgeRec.child

/-- The `site` view. -/
def ResultBuffer.site (b : ResultBuffer) : List Int := b.muts.map MutRec.site

/-- The `node` view. -/
def ResultBuffer.node (b : ResultBuffer) : List Int := b.muts.map MutRec.node

/-- The `derived_state` view. -/
def ResultBuffer.derived_state (b : ResultBuffer) : List Int :=
  b.muts.map MutRec.derived_state

/-- `ResultBuffer.__init__` (`inference.py:680-696`): raises `ValueError`
when `chunk_size < 1`, otherwise allocates both record areas with
capacity `chunk_size` and zero live records. -/
def ResultBuffer.init (chunk_size : Int) : Except String ResultBuffer :=
  if chunk_size < 1 then Except.error "chunk size must be > 0"
  else Except.ok
    { chunk_size := chunk_size.toNat
      edges := []
      max_edges := chunk_size.toNat
      muts := []
      max_mutations := chunk_size.toNat }

/-- `ResultBuffer.clear` (`inference.py:726-731`): resets both counts to
zero without releasing backing storage. -/
def ResultBuffer.clear (b : ResultBuffer) : ResultBuffer :=
  { b with edges := [], muts := [] }

/-- `ResultBuffer.check_edges_size` (`inference.py:747-758`): grow the
edge capacity by `max(additional, chunk_size)` when the pending batch
would exceed it. -/
def ResultBuffer.check_edges_size (b : ResultBuffer) (additional : Nat) :
    ResultBuffer :=
  if b.num_edges + additional > b.max_edges then
    { b with max_edges := b.max_edges + max additional b.chunk_size }
  else b

/-- `ResultBuffer.check_mutations_size` (`inference.py:776-786`). -/
def ResultBuffer.check_mutations_size (b : ResultBuffer) (additional : Nat) :
    ResultBuffer :=
  if b.num_mutations + additional > b.max_mutations then
    { b with max_mutations := b.max_mutations + max additional b.chunk_size }
  else b

/-- `ResultBuffer.add_edges` (`inference.py:760-774`): appends a batch of
edges; `left`, `right` and `parent` must have equal size (source
`assert`s), `child` may be a scalar broadcast across the batch or a
parallel array. -/
def ResultBuffer.add_edges (b : ResultBuffer) (left right parent : List Int)
    (child : ColArg) : Except String ResultBuffer :=
  let size := left.length
  if right.length = size ∧ parent.length = size then
    match child.broadcast size with
    | some cs =>
      let b1 := b.check_edges_size size
      Except.ok { b1 with edges := b1.edges ++ zipEdge storeEdge left right parent cs }
    | none => Except.error "could not broadcast child"
  else Except.error "assertion failed: edge column shapes"

/-- `ResultBuffer.add_mutations` (`inference.py:788-802`): appends a batch
of mutations; `node` may be a scalar or parallel array, `derived_state`
defaults to the scalar 1 when omitted. -/
def ResultBuffer.add_mutations (b : ResultBuffer) (site : List Int)
    (node : ColArg) (derived_state : Option ColArg) : Except String ResultBuffer :=
  let size := site.length
  let fill := derived_state.getD (ColArg.scalar 1)
  match node.broadcast size, fill.broadcast size with
  | some ns, some ds =>
    let b1 := b.check_mutations_size size
    Except.ok { b1 with muts := b1.muts ++ zipMut storeMut site ns ds }
  | _, _ => Except.error "could not broadcast node or derived_state"

/-- `ResultBuffer.add_back_mutation` (`inference.py:804-812`): appends a
single mutation with explicit reversion state 0. -/
def ResultBuffer.add_back_mutation (b : ResultBuffer) (site node : Int) :
    ResultBuffer :=
  let b1 := b.check_mutations_size 1
  { b1 with muts := b1.muts ++ [storeMut site node 0] }

/-- The loop body of `ResultBuffer.combine` (`inference.py:823-826`):
append one input buffer's edge and mutation views to the accumulator. -/
def combine_step (combined result : ResultBuffer) : Except String ResultBuffer := do
  let combined ← combined.add_edges result.left result.right result.parent
    (ColArg.array result.child)
  combined.add_mutations result.site (ColArg.array result.node)
    (some (ColArg.array result.derived_state))

/-- `ResultBuffer.combine` (`inference.py:814-827`): allocates a new
buffer of capacity `max(1, total edge count)` and appends every input
buffer's edge and mutation views in input order. -/
def ResultBuffer.combine (result_buffers : List ResultBuffer) :
    Except String ResultBuffer :=
  let size : Int := max 1 (Int.ofNat (result_buffers.map ResultBuffer.num_edges).sum)
  match ResultBuffer.init size with
  | Except.error e => Except.error e
  | Except.ok c => result_buffers.foldlM combine_step c

/-
Epoch partitioning (`AncestorMatcher.__init__`, `inference.py:384-389`):

    breaks = np.where(self.epoch[1:] != self.epoch[:-1])[0]
    start = np.hstack([[0], breaks + 1])
    end = np.hstack([breaks + 1, [self.num_ancestors]])
    self.epoch_slices = np.vstack([start, end]).T
-/

/-- The indices `j < num_ancestors - 1` where `epoch[j+1] != epoch[j]`
(the `breaks` array). -/
def epoch_breaks (epoch : List Int) : List Nat :=
  (List.range (epoch.length - 1)).filter
    (fun j => decide (epoch.getD (j + 1) 0 ≠ epoch.getD j 0))

/-- The `epoch_slices` array: half-open `(start, end)` ranges over the
ancestor id space, one per run of equal time values. -/
def epoch_slices (epoch : List Int) : List (Nat × Nat) :=
  let breaks := epoch_breaks epoch
  let start := 0 :: breaks.map (· + 1)
  let end_ := breaks.map (· + 1) ++ [epoch.length]
  start.zip end_

/-
The tree-sequence builder.  The `TreeSequenceBuilder` class itself lives
in the external `_tsinfer` C module / `tsinfer/algorithm.py`, neither of
which is under `src/`; only its callers are.  It is therefore modelled
from the spec.
-/

/-- One call made on the tree-sequence builder, recorded so that the
shape of an epoch commit (which calls happen, in which order, with which
arguments) can be stated. -/
inductive BuilderCall where
  | addNode (time : Int) (id : Nat)
  | addPath (node : Nat) (left right parent : List Int)
  | addMutations (site node derived_state : List Int)
deriving DecidableEq, Repr

/-- Modelled from the spec: the external `TreeSequenceBuilder`
collaborator (spec section 3 and 6; the implementation in
`_tsinfer` / `tsinfer/algorithm.py` is not under `src/`): an append-only
structure exposing `add_node(time) -> node_id` with ids assigned
sequentially and never reused, `add_path(node_id, left[], right[],
parent[])` bulk edge insertion for one child, `add_mutations(site[],
node[], derived_state[])` bulk insertion, and the count `num_nodes`.
The `log` field records the calls made, in order. -/
structure TreeSequenceBuilder where
  node_times : List Int
  edges : List EdgeRec
  muts : List MutRec
  log : List BuilderCall
deriving DecidableEq, Repr

def TreeSequenceBuilder.empty : TreeSequenceBuilder := ⟨[], [], [], []⟩

def TreeSequenceBuilder.num_nodes (b : TreeSequenceBuilder) : Nat :=
  b.node_times.length

/-- `add_node(time) -> node_id`: appends a node and returns its id, the
previous node count. -/
def TreeSequenceBuilder.add_node (b : TreeSequenceBuilder) (time : Int) :
    TreeSequenceBuilder × Nat :=
  ({ b with
      node_times := b.node_times ++ [time]
      log := b.log ++ [BuilderCall.addNode time b.num_nodes] },
    b.num_nodes)

/-- `add_path(node_id, left, right, parent)`: bulk insertion of the edges
of one child, in the order given. -/
def TreeSequenceBuilder.add_path (b : TreeSequenceBuilder) (node : Nat)
    (left right parent : List Int) : TreeSequenceBuilder :=
  { b with
      edges := b.edges ++ zipEdge EdgeRec.mk left right parent
        (List.replicate left.length (Int.ofNat node))
      log := b.log ++ [BuilderCall.addPath node left right parent] }

/-- `add_mutations(site, node, derived_state)`: bulk insertion. -/
def TreeSequenceBuilder.add_mutations (b : TreeSequenceBuilder)
    (site node derived_state : List Int) : TreeSequenceBuilder :=
  { b with
      muts := b.muts ++ zipMut MutRec.mk site node derived_state
      log := b.log ++ [BuilderCall.addMutations site node derived_state] }

/-
The ancestor-matching driver (`AncestorMatcher`, `inference.py:365-568`),
single-threaded path.  The per-haplotype Li-Stephens matcher
(`matcher.find_path`) is an external collaborator (spec section 1) and is
a parameter of the driver: given a haplotype and its `[start, end)` span
it returns the `(left, right, parent)` edge columns and the matched
haplotype written into the scratch `match` array.
-/

/-- Result of one external `matcher.find_path` call: the edge columns and
the contents of the scratch `match` array after the call. -/
structure PathResult where
  left : List Int
  right : List Int
  parent : List Int
  matched : List Nat
deriving DecidableEq, Repr

/-- The external per-thread Li-Stephens matcher, abstracted as a function
of the haplotype and its span. -/
abbrev FindPath := List Nat → Nat → Nat → PathResult

/-- Per-ancestor metadata from the ancestor-store collaborator
(`self.epoch`, `self.focal_sites`, `self.start`, `self.end`,
`ancestor_haplotypes`). -/
structure AncestorData where
  time : List Int
  focal_sites : List (List Nat)
  start : List Nat
  end_ : List Nat
  haplotypes : List (List Nat)
deriving Repr

/-- `Matcher._find_path` (`inference.py:266-297`) restricted to what the
claims observe: invoke the external matcher and append the resulting
edges to the thread's `ResultBuffer` tagged with `child_id` (statistics,
progress display and the traceback debug dump are omitted). -/
def matcher_find_path (fp : FindPath) (child_id : Nat) (haplotype : List Nat)
    (start end_ : Nat) (results : ResultBuffer) :
    Except String (ResultBuffer × PathResult) := do
  let res := fp haplotype start end_
  let results ← results.add_edges res.left res.right res.parent
    (ColArg.scalar (Int.ofNat child_id))
  Except.ok (results, res)

/-- `AncestorMatcher.__ancestor_find_path` (`inference.py:427-441`):
records the focal-site mutations for the node, asserts the haplotype is
`UNKNOWN_ALLELE` outside `[start, end)` and holds the derived allele 1 at
every focal site, runs the matcher, resets the focal sites of the
haplotype to the ancestral state 0 and asserts the scratch match equals
the reset haplotype.  Returns the updated buffer and the reset
haplotype. -/
def ancestor_find_path (ad : AncestorData) (fp : FindPath)
    (ancestor_id node_id : Nat) (haplotype : List Nat) (rb : ResultBuffer) :
    Except String (ResultBuffer × List Nat) := do
  let focal_sites := ad.focal_sites.getD ancestor_id []
  let start := ad.start.getD ancestor_id 0
  let end_ := ad.end_.getD ancestor_id 0
  let rb ← rb.add_mutations (focal_sites.map Int.ofNat)
    (ColArg.scalar (Int.ofNat node_id)) none
  if (haplotype.take start).all (fun v => decide (v = UNKNOWN_ALLELE)) &&
      (haplotype.drop end_).all (fun v => decide (v = UNKNOWN_ALLELE)) &&
      focal_sites.all (fun f => decide (haplotype.getD f 0 = 1)) then
    match matcher_find_path fp node_id haplotype start end_ rb with
    | Except.error e => Except.error e
    | Except.ok (rb, res) =>
      let haplotype2 := focal_sites.foldl (fun h f => h.set f 0) haplotype
      if res.matched = haplotype2 then Except.ok (rb, haplotype2)
      else Except.error "assertion failed: match equals reset haplotype"
  else Except.error "assertion failed: haplotype preconditions"

/-- Numpy integer indexing into an axis of length `n`: indices in
`[-n, n)` are valid, negative ones count from the end. -/
def pyIndex (n : Nat) (j : Int) : Option Nat :=
  if 0 ≤ j ∧ j < Int.ofNat n then some j.toNat
  else if -(Int.ofNat n) ≤ j ∧ j < 0 then some (Int.ofNat n + j).toNat
  else none

/-- `index = np.where(epoch_results.child == c)` followed by the
`[::-1]` reversal (`inference.py:465-471`): the merged edges whose child
equals `c`, in reverse order. -/
def sel_edges (rb : ResultBuffer) (c : Int) : List EdgeRec :=
  (rb.edges.filter (fun ed => decide (ed.child = c))).reverse

/-- The per-node commit loop of `__complete_epoch`
(`inference.py:463-471`): for `j` in `range(k)`, filter the merged edges
whose child is `c0 + j` (`c0` is `epoch_results.child[0]`), assign the
next node id with `add_node` and commit the filtered edges reversed in a
single `add_path` call.  Returns the builder and the node ids assigned,
in order. -/
def complete_epoch_loop (rb : ResultBuffer) (current_time : Int) (c0 : Int) :
    Nat → Nat → TreeSequenceBuilder → TreeSequenceBuilder × List Nat
  | 0, _, tsb => (tsb, [])
  | Nat.succ k, j, tsb =>
    let sel := sel_edges rb (c0 + Int.ofNat j)
    let an := tsb.add_node current_time
    let tsb2 := an.1.add_path an.2 (sel.map EdgeRec.left) (sel.map EdgeRec.right)
      (sel.map EdgeRec.parent)
    let rest := complete_epoch_loop rb current_time c0 k (j + 1) tsb2
    (rest.1, an.2 :: rest.2)

/-- `AncestorMatcher.__complete_epoch` (`inference.py:450-498`), minus
logging, statistics reset and the checkpoint write: merges the per-thread
result buffers with `ResultBuffer.combine`, commits one `add_path` per
ancestor of the epoch (node ids assigned by `add_node` in order), then
one bulk `add_mutations` for the whole epoch, and clears every thread
buffer.  `epoch_results.child[0]` on an empty merged buffer raises
(`IndexError`).  Returns the builder, the cleared buffers and the node
ids assigned. -/
def complete_epoch (time : List Int) (slices : List (Nat × Nat))
    (epoch_index : Int) (results : List ResultBuffer)
    (tsb : TreeSequenceBuilder) :
    Except String (TreeSequenceBuilder × List ResultBuffer × List Nat) :=
  match pyIndex slices.length epoch_index with
  | none => Except.error "IndexError: epoch_slices"
  | some jj =>
    let se := slices.getD jj (0, 0)
    let num_ancestors_in_epoch := se.2 - se.1
    let current_time := time.getD se.1 0
    match ResultBuffer.combine results with
    | Except.error e => Except.error e
    | Except.ok epoch_results =>
      if num_ancestors_in_epoch ≠ 0 ∧ epoch_results.edges = [] then
        Except.error "IndexError: child[0] of empty epoch results"
      else
        let c0 := epoch_results.child.headD 0
        let r := complete_epoch_loop epoch_results current_time c0
          num_ancestors_in_epoch 0 tsb
        let tsb2 := r.1.add_mutations epoch_results.site epoch_results.node
          epoch_results.derived_state
        Except.ok (tsb2, results.map ResultBuffer.clear, r.2)

/-- The inner dispatch loop of `__match_ancestors_single_threaded`
(`inference.py:505-508`): for each ancestor of the epoch take the next
haplotype from the stream (raising `StopIteration` when exhausted) and
run `ancestor_find_path` with the next pre-assigned node id.  Returns the
updated thread buffer and the remaining stream. -/
def dispatch_epoch (ad : AncestorData) (fp : FindPath) :
    Nat → Nat → Nat → List (List Nat) → ResultBuffer →
    Except String (ResultBuffer × List (List Nat))
  | 0, _, _, haps, rb => Except.ok (rb, haps)
  | Nat.succ k, ancestor_id, node_id, haps, rb =>
    match haps with
    | [] => Except.error "StopIteration"
    | a :: rest =>
      match ancestor_find_path ad fp ancestor_id node_id a rb with
      | Except.error e => Except.error e
      | Except.ok rh => dispatch_epoch ad fp k (ancestor_id + 1) (node_id + 1) rest rh.1

/-- The epoch loop of `__match_ancestors_single_threaded`
(`inference.py:500-509`) over an explicit list of epoch indices: for each
epoch, read its slice, dispatch every ancestor starting from node id
`num_nodes`, then `complete_epoch`.  Returns the final builder and the
trace of node ids assigned per epoch. -/
def match_epochs (ad : AncestorData) (fp : FindPath)
    (slices : List (Nat × Nat)) :
    List Int → TreeSequenceBuilder → ResultBuffer → List (List Nat) →
    Except String (TreeSequenceBuilder × List (List Nat))
  | [], tsb, _, _ => Except.ok (tsb, [])
  | j :: rest, tsb, rb, haps =>
    match pyIndex slices.length j with
    | none => Except.error "IndexError: epoch_slices"
    | some jj =>
      let se := slices.getD jj (0, 0)
      match dispatch_epoch ad fp (se.2 - se.1) se.1 tsb.num_nodes haps rb with
      | Except.error e => Except.error e
      | Except.ok rbh =>
        match complete_epoch ad.time slices j [rbh.1] tsb with
        | Except.error e => Except.error e
        | Except.ok tri =>
          match match_epochs ad fp slices rest tri.1
              (tri.2.1.headD rbh.1.clear) rbh.2 with
          | Except.error e => Except.error e
          | Except.ok fin => Except.ok (fin.1, tri.2.2 :: fin.2)

/-- Python `range(a, b)` over Int. -/
def intRange (a b : Int) : List Int :=
  (List.range (b - a).toNat).map (fun k => a + Int.ofNat k)

/-- `AncestorMatcher.__init__` (`inference.py:368-411`) +
`match_ancestors` single-threaded path: computes the epoch slices; on a
fresh run inserts the root node at the oldest time and starts at epoch 1
with the haplotype stream at ancestor 1; on resume restores the
checkpointed builder state, takes `first_ancestor` from the restored node
count and computes `start_epoch = num_epochs - epoch[first_ancestor] + 1`
(the arithmetic the source flags as a probable off-by-one), starting the
haplotype stream at `first_ancestor`.  Runs the epoch loop over
`range(start_epoch, num_epochs)`. -/
def match_ancestors_single_threaded (ad : AncestorData) (fp : FindPath)
    (resume : Bool) (restored : TreeSequenceBuilder) :
    Except String (TreeSequenceBuilder × List (List Nat)) :=
  let slices := epoch_slices ad.time
  let num_epochs := slices.length
  let first_ancestor := if resume then restored.num_nodes else 1
  let start_epoch : Int :=
    if resume then Int.ofNat num_epochs - ad.time.getD first_ancestor 0 + 1
    else 1
  let tsb := if resume then restored
    else (TreeSequenceBuilder.empty.add_node (ad.time.getD 0 0)).1
  let rb : ResultBuffer := ⟨1024, [], 1024, [], 1024⟩
  match_epochs ad fp slices (intRange start_epoch (Int.ofNat num_epochs)) tsb rb
    (ad.haplotypes.drop first_ancestor)

/-
The worker-pool dispatch decision (`AncestorMatcher.match_ancestors`,
`inference.py:554-559`, and `SampleMatcher.match_samples`,
`inference.py:639-644`) and the multi-threaded setup
(`__match_ancestors_multi_threaded`, `inference.py:511-534`;
`__match_samples_multi_threaded`, `inference.py:604-628`).
-/

/-- What the orchestrator sets up for a given configured thread count:
whether a worker pool and work queue are created, how many worker threads
and the queue capacity. -/
structure PoolConfig where
  pool_created : Bool
  num_workers : Nat
  queue_depth : Nat
deriving DecidableEq, Repr

/-- `AncestorMatcher.match_ancestors` (`inference.py:554-559`): the
single-threaded path is taken iff `num_threads <= 0`; otherwise
`__match_ancestors_multi_threaded` creates a queue of capacity
`8 * num_threads` and `num_threads` worker threads. -/
def match_ancestors_schedule (num_threads : Int) : PoolConfig :=
  if num_threads ≤ 0 then ⟨false, 0, 0⟩
  else ⟨true, num_threads.toNat, 8 * num_threads.toNat⟩

/-- `SampleMatcher.match_samples` (`inference.py:639-644`): same dispatch
decision as `match_ancestors_schedule`. -/
def match_samples_schedule (num_threads : Int) : PoolConfig :=
  if num_threads ≤ 0 then ⟨false, 0, 0⟩
  else ⟨true, num_threads.toNat, 8 * num_threads.toNat⟩

/-
The worker loop (`match_worker` in `__match_ancestors_multi_threaded`,
`inference.py:519-527`):

    def match_worker(thread_index):
        while True:
            work = match_queue.get()
            if work is None:
                break
            ancestor_id, node_id, a = work
            self.__ancestor_find_path(ancestor_id, node_id, a, thread_index)
            match_queue.task_done()
        match_queue.task_done()

modelled over the sequence of items the worker will pop from the queue.
An exception inside the matching call propagates out of the loop: the
thread dies carrying the exception, without calling `task_done` for the
failed item and without reaching the trailing `task_done`.
-/

/-- An item popped from the work queue: the `None` shutdown sentinel or a
work unit (abstracted to an index identifying it). -/
inductive QueueItem where
  | sentinel
  | work (w : Nat)
deriving DecidableEq, Repr

/-- What has happened to one worker thread after consuming a sequence of
queue items: how many times it called `task_done`, whether it exited its
loop normally via the sentinel, and the exception (if any) that escaped
the loop and killed the thread. -/
structure WorkerOutcome where
  task_done_calls : Nat
  broke_on_sentinel : Bool
  escaped : Option String
deriving DecidableEq, Repr

/-- The `match_worker` loop over the queue items it pops.  An empty list
means the worker is still blocked on `get`. -/
def match_worker_loop (process : Nat → Except String Unit) :
    List QueueItem → WorkerOutcome
  | [] => ⟨0, false, none⟩
  | QueueItem.sentinel :: _ => ⟨1, true, none⟩
  | QueueItem.work w :: rest =>
    match process w with
    | Except.error e => ⟨0, false, some e⟩
    | Except.ok _ =>
      let o := match_worker_loop process rest
      ⟨o.task_done_calls + 1, o.broke_on_sentinel, o.escaped⟩

/-- `queue.join()` semantics: the epoch barrier unblocks only once the
number of `task_done` calls has reached the number of items put. -/
def queue_join_unblocks (num_put num_task_done : Nat) : Bool :=
  num_task_done == num_put

/-
Operation sequences over a `ResultBuffer`, for stating the growth /
round-trip property over arbitrary interleavings of the three append
operations.
-/

/-- One public append call on a `ResultBuffer`. -/
inductive BufOp where
  | addEdges (left right parent : List Int) (child : ColArg)
  | addMutations (site : List Int) (node : ColArg) (derived_state : Option ColArg)
  | addBackMutation (site node : Int)
deriving Repr

/-- Apply one append call. -/
def applyBufOp (b : ResultBuffer) : BufOp → Except String ResultBuffer
  | BufOp.addEdges l r p c => b.add_edges l r p c
  | BufOp.addMutations s n d => b.add_mutations s n d
  | BufOp.addBackMutation s n => Except.ok (b.add_back_mutation s n)

/-- Apply a sequence of append calls. -/
def runBufOps (b : ResultBuffer) (ops : List BufOp) : Except String ResultBuffer :=
  ops.foldlM applyBufOp b

/-- The batch size an operation adds to the edge area. -/
def BufOp.edgeSize : BufOp → Nat
  | BufOp.addEdges l _ _ _ => l.length
  | _ => 0

/-- The batch size an operation adds to the mutation area. -/
def BufOp.mutSize : BufOp → Nat
  | BufOp.addMutations s _ _ => s.length
  | BufOp.addBackMutation _ _ => 1
  | _ => 0

/-- The edge capacity after one call, per the growth policy of
`check_edges_size`: grow by `max(additional, chunk_size)` exactly when
the pending batch would exceed the capacity. -/
def edgeCapAfter (b : ResultBuffer) (op : BufOp) : Nat :=
  match op with
  | BufOp.addEdges l _ _ _ =>
    if b.num_edges + l.length > b.max_edges then
      b.max_edges + max l.length b.chunk_size
    else b.max_edges
  | _ => b.max_edges

/-- The mutation capacity after one call, per `check_mutations_size`. -/
def mutCapAfter (b : ResultBuffer) (op : BufOp) : Nat :=
  match op with
  | BufOp.addMutations s _ _ =>
    if b.num_mutations + s.length > b.max_mutations then
      b.max_mutations + max s.length b.chunk_size
    else b.max_mutations
  | BufOp.addBackMutation _ _ =>
    if b.num_mutations + 1 > b.max_mutations then
      b.max_mutations + max 1 b.chunk_size
    else b.max_mutations
  | _ => b.max_mutations

/-- The edge records an operation appends, as stored (dtype wrap applied). -/
def BufOp.edgeRecs : BufOp → List EdgeRec
  | BufOp.addEdges l r p c => zipEdge storeEdge l r p ((c.broadcast l.length).getD [])
  | _ => []

/-- The mutation records an operation appends, as stored. -/
def BufOp.mutRecs : BufOp → List MutRec
  | BufOp.addMutations s n d =>
    zipMut storeMut s ((n.broadcast s.length).getD [])
      (((d.getD (ColArg.scalar 1)).broadcast s.length).getD [])
  | BufOp.addBackMutation s n => [storeMut s n 0]
  | _ => []

/-- The edge records an operation describes, before any dtype wrap: the
records "as added" by the caller. -/
def BufOp.rawEdgeRecs : BufOp → List EdgeRec
  | BufOp.addEdges l r p c => zipEdge EdgeRec.mk l r p ((c.broadcast l.length).getD [])
  | _ => []

/-- The mutation records an operation describes, before any dtype wrap. -/
def BufOp.rawMutRecs : BufOp → List MutRec
  | BufOp.addMutations s n d =>
    zipMut MutRec.mk s ((n.broadcast s.length).getD [])
      (((d.getD (ColArg.scalar 1)).broadcast s.length).getD [])
  | BufOp.addBackMutation s n => [MutRec.mk s n 0]
  | _ => []

/-- A value representable in numpy uint32. -/
def fitsU32 (x : Int) : Prop := 0 ≤ x ∧ x < 2 ^ 32

/-- A value representable in numpy int32. -/
def fitsI32 (x : Int) : Prop := -(2 ^ 31) ≤ x ∧ x < 2 ^ 31

/-- A value representable in numpy int8. -/
def fitsI8 (x : Int) : Prop := -(2 ^ 7) ≤ x ∧ x < 2 ^ 7

instance (x : Int) : Decidable (fitsU32 x) := by unfold fitsU32; infer_instance
instance (x : Int) : Decidable (fitsI32 x) := by unfold fitsI32; infer_instance
instance (x : Int) : Decidable (fitsI8 x) := by unfold fitsI8; infer_instance

/-- An edge record whose fields fit their column dtypes. -/
def EdgeRec.Fits (e : EdgeRec) : Prop :=
  fitsU32 e.left ∧ fitsU32 e.right ∧ fitsI32 e.parent ∧ fitsI32 e.child

/-- A mutation record whose fields fit their column dtypes. -/
def MutRec.Fits (m : MutRec) : Prop :=
  fitsU32 m.site ∧ fitsI32 m.node ∧ fitsI8 m.derived_state

instance (e : EdgeRec) : Decidable e.Fits := by unfold EdgeRec.Fits; infer_instance
instance (m : MutRec) : Decidable m.Fits := by unfold MutRec.Fits; infer_instance

/-- All records described by an operation fit their dtypes (so storing
them is the identity). -/
def BufOp.InRange (op : BufOp) : Prop :=
  (∀ e ∈ op.rawEdgeRecs, e.Fits) ∧ (∀ m ∈ op.rawMutRecs, m.Fits)

instance (op : BufOp) : Decidable op.InRange := by unfold BufOp.InRange; infer_instance

/-- A buffer whose stored records all fit their dtypes: every buffer the
program builds satisfies this, since every store wraps into range. -/
def ResultBuffer.WF (b : ResultBuffer) : Prop :=
  (∀ e ∈ b.edges, e.Fits) ∧ (∀ m ∈ b.muts, m.Fits)

instance (b : ResultBuffer) : Decidable b.WF := by unfold ResultBuffer.WF; infer_instance

/-
Basic lemmas about the dtype stores and the column zips.
-/

theorem wrapU32_eq_self {x : Int} (h : fitsU32 x) : wrapU32 x = x := by
  obtain ⟨ha, hb⟩ := h
  exact Int.emod_eq_of_lt ha hb

theorem wrapI32_eq_self {x : Int} (h : fitsI32 x) : wrapI32 x = x := by
  obtain ⟨ha, hb⟩ := h
  unfold wrapI32
  rw [Int.emod_eq_of_lt (by omega) (by omega)]
  ring

theorem wrapI8_eq_self {x : Int} (h : fitsI8 x) : wrapI8 x = x := by
  obtain ⟨ha, hb⟩ := h
  unfold wrapI8
  rw [Int.emod_eq_of_lt (by omega) (by omega)]
  ring

theorem storeEdge_eq_self {e : EdgeRec} (h : e.Fits) :
    storeEdge e.left e.right e.parent e.child = e := by
  obtain ⟨h1, h2, h3, h4⟩ := h
  unfold storeEdge
  rw [wrapU32_eq_self h1, wrapU32_eq_self h2, wrapI32_eq_self h3, wrapI32_eq_self h4]

theorem storeMut_eq_self {m : MutRec} (h : m.Fits) :
    storeMut m.site m.node m.derived_state = m := by
  obtain ⟨h1, h2, h3⟩ := h
  unfold storeMut
  rw [wrapU32_eq_self h1, wrapI32_eq_self h2, wrapI8_eq_self h3]

theorem zipEdge_map {α : Type} (f : Int → Int → Int → Int → EdgeRec)
    (g1 g2 g3 g4 : α → Int) (l : List α) :
    zipEdge f (l.map g1) (l.map g2) (l.map g3) (l.map g4) =
      l.map (fun x => f (g1 x) (g2 x) (g3 x) (g4 x)) := by
  induction l with
  | nil => rfl
  | cons x xs ih => simp [zipEdge, ih]

theorem zipMut_map {α : Type} (f : Int → Int → Int → MutRec)
    (g1 g2 g3 : α → Int) (l : List α) :
    zipMut f (l.map g1) (l.map g2) (l.map g3) =
      l.map (fun x => f (g1 x) (g2 x) (g3 x)) := by
  induction l with
  | nil => rfl
  | cons x xs ih => simp [zipMut, ih]

/-- Appending a well-formed buffer's edge views stores its edge records
verbatim; the capacity check runs with the batch size. -/
theorem add_edges_views (b r : ResultBuffer) (hr : ∀ e ∈ r.edges, e.Fits) :
    b.add_edges r.left r.right r.parent (ColArg.array r.child) =
      Except.ok { b.check_edges_size r.num_edges with
                  edges := (b.check_edges_size r.num_edges).edges ++ r.edges } := by
  unfold ResultBuffer.add_edges
  simp only [ResultBuffer.left, ResultBuffer.right, ResultBuffer.parent,
    ResultBuffer.child, List.length_map, ColArg.broadcast, ResultBuffer.num_edges,
    and_self, if_true, reduceIte]
  rw [zipEdge_map]
  have hid : r.edges.map (fun e => storeEdge e.left e.right e.parent e.child) = r.edges := by
    refine (List.map_congr_left ?_).trans (List.map_id r.edges)
    intro e he
    exact storeEdge_eq_self (hr e he)
  rw [hid]

/-- Appending a well-formed buffer's mutation views stores its mutation
records verbatim. -/
theorem add_mutations_views (b r : ResultBuffer) (hr : ∀ m ∈ r.muts, m.Fits) :
    b.add_mutations r.site (ColArg.array r.node)
        (some (ColArg.array r.derived_state)) =
      Except.ok { b.check_mutations_size r.num_mutations with
                  muts := (b.check_mutations_size r.num_mutations).muts ++ r.muts } := by
  unfold ResultBuffer.add_mutations
  simp only [ResultBuffer.site, ResultBuffer.node, ResultBuffer.derived_state,
    List.length_map, ColArg.broadcast, ResultBuffer.num_mutations,
    Option.getD_some, reduceIte]
  rw [zipMut_map]
  have hid : r.muts.map (fun m => storeMut m.site m.node m.derived_state) = r.muts := by
    refine (List.map_congr_left ?_).trans (List.map_id r.muts)
    intro m hm
    exact storeMut_eq_self (hr m hm)
  rw [hid]

theorem check_edges_size_no_grow (b : ResultBuffer) (n : Nat)
    (h : b.num_edges + n ≤ b.max_edges) : b.check_edges_size n = b := by
  unfold ResultBuffer.check_edges_size
  rw [if_neg]
  omega

theorem check_mutations_size_fields (b : ResultBuffer) (n : Nat) :
    (b.check_mutations_size n).chunk_size = b.chunk_size ∧
    (b.check_mutations_size n).edges = b.edges ∧
    (b.check_mutations_size n).max_edges = b.max_edges ∧
    (b.check_mutations_size n).muts = b.muts := by
  unfold ResultBuffer.check_mutations_size
  split <;> simp

/-- Folding `combine_step` over well-formed buffers whose total edge
count fits the accumulator's capacity: every input's records are
appended in order and the edge capacity never changes. -/
theorem combine_fold (bufs : List ResultBuffer) (acc : ResultBuffer)
    (hwf : ∀ r ∈ bufs, r.WF)
    (hcap : acc.num_edges + (bufs.map ResultBuffer.num_edges).sum ≤ acc.max_edges) :
    ∃ fin, bufs.foldlM combine_step acc = Except.ok fin ∧
      fin.edges = acc.edges ++ (bufs.map ResultBuffer.edges).flatten ∧
      fin.muts = acc.muts ++ (bufs.map ResultBuffer.muts).flatten ∧
      fin.max_edges = acc.max_edges ∧
      fin.chunk_size = acc.chunk_size := by
  induction bufs generalizing acc with
  | nil => exact ⟨acc, rfl, by simp, by simp, rfl, rfl⟩
  | cons r rest ih =>
    have hrwf := hwf r (by simp)
    simp only [List.map_cons, List.sum_cons] at hcap
    have hsteq : combine_step acc r = Except.ok
        { ({ acc with edges := acc.edges ++ r.edges
             : ResultBuffer }).check_mutations_size r.num_mutations with
          muts := (({ acc with edges := acc.edges ++ r.edges
             : ResultBuffer }).check_mutations_size r.num_mutations).muts ++ r.muts } := by
      unfold combine_step
      rw [add_edges_views acc r hrwf.1,
        check_edges_size_no_grow acc r.num_edges (by omega)]
      exact add_mutations_views _ r hrwf.2
    have hfields := check_mutations_size_fields
      ({ acc with edges := acc.edges ++ r.edges : ResultBuffer }) r.num_mutations
    rw [List.foldlM_cons, hsteq]
    have hred : ((Except.ok
        { ({ acc with edges := acc.edges ++ r.edges
             : ResultBuffer }).check_mutations_size r.num_mutations with
          muts := (({ acc with edges := acc.edges ++ r.edges
             : ResultBuffer }).check_mutations_size r.num_mutations).muts ++ r.muts }
        : Except String ResultBuffer) >>= fun x => List.foldlM combine_step x rest) =
        List.foldlM combine_step
        { ({ acc with edges := acc.edges ++ r.edges
             : ResultBuffer }).check_mutations_size r.num_mutations with
          muts := (({ acc with edges := acc.edges ++ r.edges
             : ResultBuffer }).check_mutations_size r.num_mutations).muts ++ r.muts }
        rest := rfl
    rw [hred]
    obtain ⟨fin, hrun, he, hm, hme, hc⟩ := ih
      { ({ acc with edges := acc.edges ++ r.edges
           : ResultBuffer }).check_mutations_size r.num_mutations with
        muts := (({ acc with edges := acc.edges ++ r.edges
           : ResultBuffer }).check_mutations_size r.num_mutations).muts ++ r.muts }
      (fun x hx => hwf x (by simp [hx]))
      (by
        simp only [ResultBuffer.num_edges, hfields.2.1, hfields.2.2.1]
        show (acc.edges ++ r.edges).length +
          (List.map ResultBuffer.num_edges rest).sum ≤ acc.max_edges
        simp only [List.length_append]
        simp only [ResultBuffer.num_edges] at hcap
        omega)
    refine ⟨fin, hrun, ?_, ?_, ?_, ?_⟩
    · rw [he]
      simp only [hfields.2.1]
      simp [ResultBuffer.num_edges]
    · rw [hm]
      simp only [hfields.2.2.2]
      simp
    · rw [hme]
      simp only [hfields.2.2.1]
    · rw [hc]
      simp only [hfields.1]

/-- Extract the buffer from an `Except`, with a fallback. -/
def getBufD (e : Except String ResultBuffer) (d : ResultBuffer) : ResultBuffer :=
  match e with
  | Except.ok b => b
  | Except.error _ => d

/-- C1 counterexample: combining a single empty buffer (edge count total
0) yields a buffer whose edge capacity is `max(1, 0) = 1`, not the exact
total edge count 0 — `combine` sizes the new buffer to
`max(1, total)`, so "sized to the exact total edge count" fails at total
0. -/
theorem C1_counterexample_combine_empty_sizing :
    (([(⟨1024, [], 1024, [], 1024⟩ : ResultBuffer)].map ResultBuffer.num_edges).sum = 0) ∧
    (getBufD (ResultBuffer.combine [⟨1024, [], 1024, [], 1024⟩]) ⟨0, [], 0, [], 0⟩).max_edges = 1 ∧
    (getBufD (ResultBuffer.combine [⟨1024, [], 1024, [], 1024⟩]) ⟨0, [], 0, [], 0⟩).max_edges ≠
      ([(⟨1024, [], 1024, [], 1024⟩ : ResultBuffer)].map ResultBuffer.num_edges).sum := by
  refine ⟨rfl, rfl, ?_⟩
  decide

/-- Unfolding equation for `ResultBuffer.combine`. -/
theorem combine_eq (bufs : List ResultBuffer) :
    ResultBuffer.combine bufs =
      match ResultBuffer.init
          (max 1 (Int.ofNat (bufs.map ResultBuffer.num_edges).sum)) with
      | Except.error e => Except.error e
      | Except.ok c => bufs.foldlM combine_step c := rfl

/-- What `combine` returns on well-formed inputs: the records
concatenated in input order and the edge capacity `max(1, total)`. -/
theorem combine_spec (bufs : List ResultBuffer) (merged : ResultBuffer)
    (hwf : ∀ r ∈ bufs, r.WF)
    (h : ResultBuffer.combine bufs = Except.ok merged) :
    merged.edges = (bufs.map ResultBuffer.edges).flatten ∧
    merged.muts = (bufs.map ResultBuffer.muts).flatten ∧
    merged.max_edges = max 1 (bufs.map ResultBuffer.num_edges).sum := by
  have hinit : ResultBuffer.init
      (max 1 (Int.ofNat (bufs.map ResultBuffer.num_edges).sum)) =
      Except.ok ⟨(max 1 (Int.ofNat (bufs.map ResultBuffer.num_edges).sum)).toNat, [],
        (max 1 (Int.ofNat (bufs.map ResultBuffer.num_edges).sum)).toNat, [],
        (max 1 (Int.ofNat (bufs.map ResultBuffer.num_edges).sum)).toNat⟩ := by
    unfold ResultBuffer.init
    rw [if_neg]
    rw [Int.ofNat_eq_natCast]
    omega
  rw [combine_eq bufs, hinit] at h
  replace h : List.foldlM combine_step
      (⟨(max 1 (Int.ofNat (bufs.map ResultBuffer.num_edges).sum)).toNat, [],
        (max 1 (Int.ofNat (bufs.map ResultBuffer.num_edges).sum)).toNat, [],
        (max 1 (Int.ofNat (bufs.map ResultBuffer.num_edges).sum)).toNat⟩ : ResultBuffer)
      bufs = Except.ok merged := h
  obtain ⟨fin, hrun, he, hm, hme, hc⟩ := combine_fold bufs
    ⟨(max 1 (Int.ofNat (bufs.map ResultBuffer.num_edges).sum)).toNat, [],
      (max 1 (Int.ofNat (bufs.map ResultBuffer.num_edges).sum)).toNat, [],
      (max 1 (Int.ofNat (bufs.map ResultBuffer.num_edges).sum)).toNat⟩
    hwf
    (by
      show 0 + (bufs.map ResultBuffer.num_edges).sum ≤
        (max 1 (Int.ofNat (bufs.map ResultBuffer.num_edges).sum)).toNat
      rw [Int.ofNat_eq_natCast]
      omega)
  rw [hrun] at h
  have hcb : merged = fin := by
    injection h with h2
    exact h2.symm
  subst hcb
  have hS : (max 1 (Int.ofNat (bufs.map ResultBuffer.num_edges).sum)).toNat =
      max 1 (bufs.map ResultBuffer.num_edges).sum := by
    rw [Int.ofNat_eq_natCast]
    omega
  refine ⟨by rw [he]; simp, by rw [hm]; simp, by rw [hme]; exact hS⟩


/-- C1 (amended): `ResultBuffer.combine` applied to `k` (well-formed)
buffers returns a new buffer whose edge count equals the sum of the
inputs' edge counts, whose edge and mutation records are the inputs'
records concatenated in input order with each input's internal order
preserved contiguously, and which is sized to `max(1, total edge count)`
(the exact total whenever at least one edge is present).  The embedding
of `combine` is a pure function of its inputs, reflecting that the
source only reads the input buffers' views, so the inputs are not
modified. -/
theorem C1_combine_concatenation (bufs : List ResultBuffer) (cb : ResultBuffer)
    (hwf : ∀ r ∈ bufs, r.WF)
    (h : ResultBuffer.combine bufs = Except.ok cb) :
    cb.num_edges = (bufs.map ResultBuffer.num_edges).sum ∧
    cb.num_mutations = (bufs.map ResultBuffer.num_mutations).sum ∧
    cb.edges = (bufs.map ResultBuffer.edges).flatten ∧
    cb.muts = (bufs.map ResultBuffer.muts).flatten ∧
    cb.max_edges = max 1 (bufs.map ResultBuffer.num_edges).sum := by
  have hinit : ResultBuffer.init
      (max 1 (Int.ofNat (bufs.map ResultBuffer.num_edges).sum)) =
      Except.ok ⟨(max 1 (Int.ofNat (bufs.map ResultBuffer.num_edges).sum)).toNat, [],
        (max 1 (Int.ofNat (bufs.map ResultBuffer.num_edges).sum)).toNat, [],
        (max 1 (Int.ofNat (bufs.map ResultBuffer.num_edges).sum)).toNat⟩ := by
    unfold ResultBuffer.init
    rw [if_neg]
    rw [Int.ofNat_eq_natCast]
    omega
  rw [combine_eq bufs, hinit] at h
  replace h : List.foldlM combine_step
      (⟨(max 1 (Int.ofNat (bufs.map ResultBuffer.num_edges).sum)).toNat, [],
        (max 1 (Int.ofNat (bufs.map ResultBuffer.num_edges).sum)).toNat, [],
        (max 1 (Int.ofNat (bufs.map ResultBuffer.num_edges).sum)).toNat⟩ : ResultBuffer)
      bufs = Except.ok cb := h
  obtain ⟨fin, hrun, he, hm, hme, hc⟩ := combine_fold bufs
    ⟨(max 1 (Int.ofNat (bufs.map ResultBuffer.num_edges).sum)).toNat, [],
      (max 1 (Int.ofNat (bufs.map ResultBuffer.num_edges).sum)).toNat, [],
      (max 1 (Int.ofNat (bufs.map ResultBuffer.num_edges).sum)).toNat⟩
    hwf
    (by
      show 0 + (bufs.map ResultBuffer.num_edges).sum ≤
        (max 1 (Int.ofNat (bufs.map ResultBuffer.num_edges).sum)).toNat
      rw [Int.ofNat_eq_natCast]
      omega)
  rw [hrun] at h
  have hcb : cb = fin := by
    injection h with h2
    exact h2.symm
  subst hcb
  have hS : (max 1 (Int.ofNat (bufs.map ResultBuffer.num_edges).sum)).toNat =
      max 1 (bufs.map ResultBuffer.num_edges).sum := by
    rw [Int.ofNat_eq_natCast]
    omega
  refine ⟨?_, ?_, ?_, ?_, ?_⟩
  · unfold ResultBuffer.num_edges
    rw [he]
    simp only [List.nil_append, List.length_flatten, List.map_map]
    rfl
  · unfold ResultBuffer.num_mutations
    rw [hm]
    simp only [List.nil_append, List.length_flatten, List.map_map]
    rfl
  · rw [he]; simp
  · rw [hm]; simp
  · rw [hme]
    exact hS

def c1BufA : ResultBuffer := ⟨4, [⟨0, 2, 0, 5⟩], 4, [⟨1, 5, 1⟩], 4⟩

def c1BufB : ResultBuffer := ⟨4, [⟨0, 1, 0, 6⟩, ⟨1, 2, 0, 6⟩], 4, [], 4⟩

def c1Combined : ResultBuffer :=
  ⟨3, [⟨0, 2, 0, 5⟩, ⟨0, 1, 0, 6⟩, ⟨1, 2, 0, 6⟩], 3, [⟨1, 5, 1⟩], 3⟩

/-- Witness for C1: combining two concrete buffers (1 and 2 edges)
concatenates their records in order into a buffer of capacity 3. -/
theorem C1_combine_concatenation_witness :
    c1Combined.num_edges = ([c1BufA, c1BufB].map ResultBuffer.num_edges).sum ∧
    c1Combined.num_mutations = ([c1BufA, c1BufB].map ResultBuffer.num_mutations).sum ∧
    c1Combined.edges = ([c1BufA, c1BufB].map ResultBuffer.edges).flatten ∧
    c1Combined.muts = ([c1BufA, c1BufB].map ResultBuffer.muts).flatten ∧
    c1Combined.max_edges = max 1 ([c1BufA, c1BufB].map ResultBuffer.num_edges).sum :=
  C1_combine_concatenation [c1BufA, c1BufB] c1Combined (by decide) (by rfl)

/-- C2 counterexample: with a configured thread count of 1 the
orchestrators do create a worker pool (of one thread, with a work queue
of depth 8), contradicting "no pool is created when the thread count is
0 or 1": the source branches on `num_threads <= 0`, not on
`num_threads <= 1`. -/
theorem C2_counterexample_pool_at_one_thread :
    (match_ancestors_schedule 1).pool_created = true ∧
    (match_samples_schedule 1).pool_created = true ∧
    match_ancestors_schedule 1 = ⟨true, 1, 8⟩ ∧
    match_samples_schedule 1 = ⟨true, 1, 8⟩ := by
  refine ⟨rfl, rfl, rfl, rfl⟩

/-- C2 (amended): for both orchestrators, matching runs fully
sequentially with no worker pool or work queue exactly when the
configured thread count is at most 0; for every count `t >= 1` (including
1) a pool of `t` worker threads and a bounded queue of depth `8 * t` are
created. -/
theorem C2_pool_dispatch (num_threads : Int) :
    ((match_ancestors_schedule num_threads).pool_created = false ↔ num_threads ≤ 0) ∧
    ((match_samples_schedule num_threads).pool_created = false ↔ num_threads ≤ 0) ∧
    (1 ≤ num_threads →
      match_ancestors_schedule num_threads =
        ⟨true, num_threads.toNat, 8 * num_threads.toNat⟩ ∧
      match_samples_schedule num_threads =
        ⟨true, num_threads.toNat, 8 * num_threads.toNat⟩) := by
  refine ⟨?_, ?_, ?_⟩
  · unfold match_ancestors_schedule
    split <;> simp_all
  · unfold match_samples_schedule
    split <;> simp_all
  · intro h1
    unfold match_ancestors_schedule match_samples_schedule
    constructor
    · split
      · exact absurd h1 (by omega)
      · rfl
    · split
      · exact absurd h1 (by omega)
      · rfl

/-- Witness for C2 (amended) at thread count 2: a pool of two workers
and a queue of depth 16. -/
theorem C2_pool_dispatch_witness :
    match_ancestors_schedule 2 = ⟨true, 2, 16⟩ ∧
    match_samples_schedule 2 = ⟨true, 2, 16⟩ :=
  (C2_pool_dispatch 2).2.2 (by omega)

/-- C10: constructing a `ResultBuffer` with `chunk_size < 1` raises
`ValueError`; for every `chunk_size >= 1` construction succeeds with
zero edges, zero mutations, and both capacities equal to `chunk_size`. -/
theorem C10_result_buffer_init (c : Int) :
    (c < 1 → ResultBuffer.init c = Except.error "chunk size must be > 0") ∧
    (1 ≤ c → ResultBuffer.init c =
      Except.ok ⟨c.toNat, [], c.toNat, [], c.toNat⟩ ∧
      (⟨c.toNat, [], c.toNat, [], c.toNat⟩ : ResultBuffer).num_edges = 0 ∧
      (⟨c.toNat, [], c.toNat, [], c.toNat⟩ : ResultBuffer).num_mutations = 0 ∧
      (⟨c.toNat, [], c.toNat, [], c.toNat⟩ : ResultBuffer).max_edges = c.toNat ∧
      (⟨c.toNat, [], c.toNat, [], c.toNat⟩ : ResultBuffer).max_mutations = c.toNat) := by
  constructor
  · intro hlt
    unfold ResultBuffer.init
    rw [if_pos hlt]
  · intro hge
    refine ⟨?_, rfl, rfl, rfl, rfl⟩
    unfold ResultBuffer.init
    rw [if_neg (by omega)]

/-- Witness for C10: the error case at chunk size 0 and the success case
at chunk size 2. -/
theorem C10_result_buffer_init_witness :
    ResultBuffer.init 0 = Except.error "chunk size must be > 0" ∧
    (ResultBuffer.init 2 =
      Except.ok ⟨(2:Int).toNat, [], (2:Int).toNat, [], (2:Int).toNat⟩ ∧
      (⟨(2:Int).toNat, [], (2:Int).toNat, [], (2:Int).toNat⟩ : ResultBuffer).num_edges = 0 ∧
      (⟨(2:Int).toNat, [], (2:Int).toNat, [], (2:Int).toNat⟩ : ResultBuffer).num_mutations = 0 ∧
      (⟨(2:Int).toNat, [], (2:Int).toNat, [], (2:Int).toNat⟩ : ResultBuffer).max_edges = (2:Int).toNat ∧
      (⟨(2:Int).toNat, [], (2:Int).toNat, [], (2:Int).toNat⟩ : ResultBuffer).max_mutations = (2:Int).toNat) :=
  ⟨(C10_result_buffer_init 0).1 (by omega), (C10_result_buffer_init 2).2 (by omega)⟩

theorem check_edges_size_fields (b : ResultBuffer) (n : Nat) :
    (b.check_edges_size n).chunk_size = b.chunk_size ∧
    (b.check_edges_size n).edges = b.edges ∧
    (b.check_edges_size n).muts = b.muts ∧
    (b.check_edges_size n).max_mutations = b.max_mutations := by
  unfold ResultBuffer.check_edges_size
  split <;> simp

/-- One append call, when it succeeds, grows each capacity exactly per
the `check_*_size` policy and appends exactly the stored records. -/
theorem applyBufOp_ok (b : ResultBuffer) (op : BufOp) (b2 : ResultBuffer)
    (h : applyBufOp b op = Except.ok b2) :
    b2.chunk_size = b.chunk_size ∧
    b2.max_edges = edgeCapAfter b op ∧
    b2.max_mutations = mutCapAfter b op ∧
    b2.edges = b.edges ++ op.edgeRecs ∧
    b2.muts = b.muts ++ op.mutRecs := by
  cases op with
  | addEdges l r p c =>
    simp only [applyBufOp, ResultBuffer.add_edges] at h
    by_cases hsz : r.length = l.length ∧ p.length = l.length
    · rw [if_pos hsz] at h
      cases hb : ColArg.broadcast c l.length with
      | none => rw [hb] at h; exact absurd h (by simp)
      | some cs =>
        rw [hb] at h
        injection h with h2
        subst h2
        have hf := check_edges_size_fields b l.length
        refine ⟨hf.1, ?_, ?_, ?_, ?_⟩
        · show (b.check_edges_size l.length).max_edges = _
          simp only [ResultBuffer.check_edges_size, edgeCapAfter]
          split <;> rfl
        · show (b.check_edges_size l.length).max_mutations = _
          rw [hf.2.2.2]
          simp only [mutCapAfter]
        · show (b.check_edges_size l.length).edges ++ _ = _
          rw [hf.2.1]
          simp only [BufOp.edgeRecs]
          rw [hb]
          rfl
        · show (b.check_edges_size l.length).muts = _
          rw [hf.2.2.1]
          simp only [BufOp.mutRecs]
          simp
    · rw [if_neg hsz] at h
      exact absurd h (by simp)
  | addMutations s n d =>
    simp only [applyBufOp, ResultBuffer.add_mutations] at h
    cases hbn : ColArg.broadcast n s.length with
    | none => rw [hbn] at h; exact absurd h (by simp)
    | some ns =>
      cases hbd : ColArg.broadcast (d.getD (ColArg.scalar 1)) s.length with
      | none => rw [hbn, hbd] at h; exact absurd h (by simp)
      | some ds =>
        rw [hbn, hbd] at h
        injection h with h2
        subst h2
        have hf := check_mutations_size_fields b s.length
        refine ⟨hf.1, ?_, ?_, ?_, ?_⟩
        · show (b.check_mutations_size s.length).max_edges = _
          rw [hf.2.2.1]
          simp only [edgeCapAfter]
        · show (b.check_mutations_size s.length).max_mutations = _
          simp only [ResultBuffer.check_mutations_size, mutCapAfter]
          split <;> rfl
        · show (b.check_mutations_size s.length).edges = _
          rw [hf.2.1]
          simp only [BufOp.edgeRecs]
          simp
        · show (b.check_mutations_size s.length).muts ++ _ = _
          rw [hf.2.2.2]
          simp only [BufOp.mutRecs]
          rw [hbn, hbd]
          rfl
  | addBackMutation s n =>
    simp only [applyBufOp, ResultBuffer.add_back_mutation] at h
    injection h with h2
    subst h2
    have hf := check_mutations_size_fields b 1
    refine ⟨hf.1, ?_, ?_, ?_, ?_⟩
    · show (b.check_mutations_size 1).max_edges = _
      rw [hf.2.2.1]
      simp only [edgeCapAfter]
    · show (b.check_mutations_size 1).max_mutations = _
      simp only [ResultBuffer.check_mutations_size, mutCapAfter]
      split <;> rfl
    · show (b.check_mutations_size 1).edges = _
      rw [hf.2.1]
      simp only [BufOp.edgeRecs]
      simp
    · show (b.check_mutations_size 1).muts ++ _ = _
      rw [hf.2.2.2]
      simp only [BufOp.mutRecs]

/-- The growth policy never shrinks the edge capacity. -/
theorem edgeCapAfter_ge (b : ResultBuffer) (op : BufOp) :
    b.max_edges ≤ edgeCapAfter b op := by
  cases op <;> simp only [edgeCapAfter] <;> (try split) <;> omega

/-- The growth policy never shrinks the mutation capacity. -/
theorem mutCapAfter_ge (b : ResultBuffer) (op : BufOp) :
    b.max_mutations ≤ mutCapAfter b op := by
  cases op <;> simp only [mutCapAfter] <;> (try split) <;> omega

/-- A successful operation sequence preserves the chunk size, never
shrinks either capacity, and appends exactly the stored records of each
operation, in order. -/
theorem runBufOps_ok (ops : List BufOp) (b b2 : ResultBuffer)
    (h : runBufOps b ops = Except.ok b2) :
    b2.chunk_size = b.chunk_size ∧
    b.max_edges ≤ b2.max_edges ∧
    b.max_mutations ≤ b2.max_mutations ∧
    b2.edges = b.edges ++ (ops.map BufOp.edgeRecs).flatten ∧
    b2.muts = b.muts ++ (ops.map BufOp.mutRecs).flatten := by
  induction ops generalizing b with
  | nil =>
    unfold runBufOps at h
    replace h : Except.ok b = Except.ok b2 := h
    injection h with h2
    subst h2
    simp
  | cons op rest ih =>
    unfold runBufOps at h
    rw [List.foldlM_cons] at h
    cases hstep : applyBufOp b op with
    | error e =>
      rw [hstep] at h
      exact absurd h (by simp [Bind.bind, Except.bind])
    | ok bmid =>
      rw [hstep] at h
      replace h : List.foldlM applyBufOp bmid rest = Except.ok b2 := h
      obtain ⟨hc, hme, hmm, he, hm⟩ := ih bmid h
      obtain ⟨sc, sme, smm, se, sm⟩ := applyBufOp_ok b op bmid hstep
      refine ⟨hc.trans sc, ?_, ?_, ?_, ?_⟩
      · calc b.max_edges ≤ edgeCapAfter b op := edgeCapAfter_ge b op
          _ = bmid.max_edges := sme.symm
          _ ≤ b2.max_edges := hme
      · calc b.max_mutations ≤ mutCapAfter b op := mutCapAfter_ge b op
          _ = bmid.max_mutations := smm.symm
          _ ≤ b2.max_mutations := hmm
      · rw [he, se]
        simp
      · rw [hm, sm]
        simp

theorem zipEdge_store (ls rs ps cs : List Int) :
    zipEdge storeEdge ls rs ps cs =
      (zipEdge EdgeRec.mk ls rs ps cs).map
        (fun e => storeEdge e.left e.right e.parent e.child) := by
  induction ls generalizing rs ps cs with
  | nil => rfl
  | cons l ls ih =>
    cases rs with
    | nil => rfl
    | cons r rs =>
      cases ps with
      | nil => rfl
      | cons p ps =>
        cases cs with
        | nil => rfl
        | cons c cs => simp [zipEdge, ih]

theorem zipMut_store (ss ns ds : List Int) :
    zipMut storeMut ss ns ds =
      (zipMut MutRec.mk ss ns ds).map
        (fun m => storeMut m.site m.node m.derived_state) := by
  induction ss generalizing ns ds with
  | nil => rfl
  | cons s ss ih =>
    cases ns with
    | nil => rfl
    | cons n ns =>
      cases ds with
      | nil => rfl
      | cons d ds => simp [zipMut, ih]

/-- When every record an operation describes fits its dtype, the stored
records are exactly the raw records. -/
theorem bufOpRecs_eq_raw (op : BufOp) (h : op.InRange) :
    op.edgeRecs = op.rawEdgeRecs ∧ op.mutRecs = op.rawMutRecs := by
  obtain ⟨he, hm⟩ := h
  constructor
  · cases op with
    | addEdges l r p c =>
      simp only [BufOp.edgeRecs, BufOp.rawEdgeRecs]
      rw [zipEdge_store]
      simp only [BufOp.rawEdgeRecs] at he
      refine (List.map_congr_left ?_).trans (List.map_id _)
      intro e hmem
      exact storeEdge_eq_self (he e hmem)
    | addMutations s n d => rfl
    | addBackMutation s n => rfl
  · cases op with
    | addEdges l r p c => rfl
    | addMutations s n d =>
      simp only [BufOp.mutRecs, BufOp.rawMutRecs]
      rw [zipMut_store]
      simp only [BufOp.rawMutRecs] at hm
      refine (List.map_congr_left ?_).trans (List.map_id _)
      intro m hmem
      exact storeMut_eq_self (hm m hmem)
    | addBackMutation s n =>
      simp only [BufOp.mutRecs, BufOp.rawMutRecs]
      simp only [BufOp.rawMutRecs] at hm
      rw [storeMut_eq_self (hm (MutRec.mk s n 0) (by simp))]

/-- C5: over any successful sequence of `add_edges` / `add_mutations` /
`add_back_mutation` calls whose record values fit the column dtypes: a
batch that would exceed the current capacity grows that record area's
capacity by exactly `max(additional_needed, chunk_size)` (and leaves it
unchanged otherwise) — stated by `edgeCapAfter` / `mutCapAfter`, which
mirror `check_edges_size` / `check_mutations_size`; capacity never
decreases across the sequence; and all previously added records are
preserved unchanged and in order, the final edge and mutation record
lists (of which the `left`/`right`/`parent`/`child` and
`site`/`node`/`derived_state` views are the columnwise projections)
being the initial records followed by exactly the records added, in
order. -/
theorem C5_growth_and_round_trip (b : ResultBuffer) (ops : List BufOp)
    (b2 : ResultBuffer) (h : runBufOps b ops = Except.ok b2)
    (hr : ∀ op ∈ ops, op.InRange) :
    (∀ x : ResultBuffer, ∀ op : BufOp, ∀ y : ResultBuffer,
      applyBufOp x op = Except.ok y →
      y.max_edges = edgeCapAfter x op ∧ y.max_mutations = mutCapAfter x op ∧
      x.max_edges ≤ y.max_edges ∧ x.max_mutations ≤ y.max_mutations) ∧
    b.max_edges ≤ b2.max_edges ∧ b.max_mutations ≤ b2.max_mutations ∧
    b2.edges = b.edges ++ (ops.map BufOp.rawEdgeRecs).flatten ∧
    b2.muts = b.muts ++ (ops.map BufOp.rawMutRecs).flatten := by
  obtain ⟨hc, hme, hmm, he, hm⟩ := runBufOps_ok ops b b2 h
  refine ⟨?_, hme, hmm, ?_, ?_⟩
  · intro x op y hstep
    obtain ⟨_, s1, s2, _, _⟩ := applyBufOp_ok x op y hstep
    exact ⟨s1, s2, s1 ▸ edgeCapAfter_ge x op, s2 ▸ mutCapAfter_ge x op⟩
  · rw [he]
    congr 1
    congr 1
    exact List.map_congr_left (fun op hop => (bufOpRecs_eq_raw op (hr op hop)).1)
  · rw [hm]
    congr 1
    congr 1
    exact List.map_congr_left (fun op hop => (bufOpRecs_eq_raw op (hr op hop)).2)

def c5Buf : ResultBuffer := ⟨2, [], 2, [], 2⟩

def c5Op0 : BufOp := BufOp.addEdges [0, 1, 2] [5, 6, 7] [0, 0, 1] (ColArg.scalar 3)

def c5Ops : List BufOp :=
  [c5Op0, BufOp.addMutations [4] (ColArg.scalar 3) none, BufOp.addBackMutation 9 3]

def c5Mid : ResultBuffer :=
  ⟨2, [⟨0, 5, 0, 3⟩, ⟨1, 6, 0, 3⟩, ⟨2, 7, 1, 3⟩], 5, [], 2⟩

def c5Final : ResultBuffer :=
  ⟨2, [⟨0, 5, 0, 3⟩, ⟨1, 6, 0, 3⟩, ⟨2, 7, 1, 3⟩], 5, [⟨4, 3, 1⟩, ⟨9, 3, 0⟩], 2⟩

/-- Witness for C5: a batch of 3 edges into a chunk-2 buffer grows the
edge capacity from 2 to 2 + max(3, 2) = 5; the mutation area is
untouched by it; the full sequence round-trips all records in order. -/
theorem C5_growth_and_round_trip_witness :
    (c5Mid.max_edges = edgeCapAfter c5Buf c5Op0 ∧
     c5Mid.max_mutations = mutCapAfter c5Buf c5Op0 ∧
     c5Buf.max_edges ≤ c5Mid.max_edges ∧
     c5Buf.max_mutations ≤ c5Mid.max_mutations) ∧
    c5Buf.max_edges ≤ c5Final.max_edges ∧
    c5Buf.max_mutations ≤ c5Final.max_mutations ∧
    c5Final.edges = c5Buf.edges ++ (c5Ops.map BufOp.rawEdgeRecs).flatten ∧
    c5Final.muts = c5Buf.muts ++ (c5Ops.map BufOp.rawMutRecs).flatten := by
  have H := C5_growth_and_round_trip c5Buf c5Ops c5Final (by rfl) (by decide)
  exact ⟨H.1 c5Buf c5Op0 c5Mid (by rfl), H.2.1, H.2.2.1, H.2.2.2.1, H.2.2.2.2⟩

/-- C6 (code behavior at the failing input): when the matching call
raises on some work item of an epoch, the worker loop dies carrying the
exception without breaking on a sentinel: `task_done` has been called
only for the items before the failing one, so the number of `task_done`
calls stays strictly below the number of items put for the epoch and the
`queue.join()` barrier can never unblock; the exception never reaches
the orchestrator, which is blocked in `join`. -/
theorem C6_worker_failure_blocks_barrier (process : Nat → Except String Unit)
    (pre post : List Nat) (w : Nat) (e : String)
    (hpre : ∀ x ∈ pre, process x = Except.ok ())
    (hw : process w = Except.error e) :
    match_worker_loop process ((pre ++ w :: post).map QueueItem.work) =
      ⟨pre.length, false, some e⟩ ∧
    pre.length < ((pre ++ w :: post).map QueueItem.work).length ∧
    queue_join_unblocks ((pre ++ w :: post).map QueueItem.work).length
      (match_worker_loop process ((pre ++ w :: post).map QueueItem.work)).task_done_calls
      = false := by
  have hloop : match_worker_loop process ((pre ++ w :: post).map QueueItem.work) =
      ⟨pre.length, false, some e⟩ := by
    induction pre with
    | nil =>
      simp only [List.nil_append, List.map_cons, match_worker_loop, hw]
      rfl
    | cons x xs ih =>
      have hx := hpre x (by simp)
      simp only [List.cons_append, List.map_cons, match_worker_loop, hx]
      rw [List.append_eq, ih (fun y hy => hpre y (by simp [hy]))]
      rfl
  refine ⟨hloop, ?_, ?_⟩
  · simp
  · rw [hloop]
    simp only [queue_join_unblocks, List.length_map, List.length_append,
      List.length_cons]
    rw [beq_eq_false_iff_ne]
    omega

def c6Process : Nat → Except String Unit :=
  fun x => if x = 1 then Except.error "matcher raised" else Except.ok ()

/-- Witness for C6: one worker, three work items put for the epoch, the
second one raises: one `task_done` call against three puts, the barrier
stays blocked forever. -/
theorem C6_worker_failure_blocks_barrier_witness :
    match_worker_loop c6Process (([0] ++ 1 :: [2]).map QueueItem.work) =
      ⟨[0].length, false, some "matcher raised"⟩ ∧
    [0].length < (([0] ++ 1 :: [2]).map QueueItem.work).length ∧
    queue_join_unblocks (([0] ++ 1 :: [2]).map QueueItem.work).length
      (match_worker_loop c6Process
        (([0] ++ 1 :: [2]).map QueueItem.work)).task_done_calls = false :=
  C6_worker_failure_blocks_barrier c6Process [0] [2] 1 "matcher raised"
    (by
      intro x hx
      simp only [List.mem_singleton] at hx
      subst hx
      rfl)
    (by rfl)

/-
Lemmas for the epoch partition (C9).
-/

theorem getD_of_lt {α : Type} (l : List α) (n : Nat) (d : α) (h : n < l.length) :
    l.getD n d = l[n] := by
  rw [List.getD_eq_getElem?_getD, List.getElem?_eq_getElem h]
  rfl

theorem mem_epoch_breaks (epoch : List Int) (j : Nat) :
    j ∈ epoch_breaks epoch ↔
      j < epoch.length - 1 ∧ epoch.getD (j + 1) 0 ≠ epoch.getD j 0 := by
  unfold epoch_breaks
  simp [List.mem_filter, List.mem_range]

theorem epoch_breaks_sorted (epoch : List Int) :
    List.Pairwise (· < ·) (epoch_breaks epoch) := by
  unfold epoch_breaks
  exact List.Pairwise.sublist (List.filter_sublist _) (List.pairwise_lt_range _)

theorem epoch_breaks_getD_lt_iff (epoch : List Int) (t1 t2 : Nat)
    (h1 : t1 < (epoch_breaks epoch).length)
    (h2 : t2 < (epoch_breaks epoch).length) :
    (epoch_breaks epoch).getD t1 0 < (epoch_breaks epoch).getD t2 0 ↔ t1 < t2 := by
  rw [getD_of_lt _ _ _ h1, getD_of_lt _ _ _ h2]
  have hp := List.pairwise_iff_getElem.mp (epoch_breaks_sorted epoch)
  constructor
  · intro hlt
    by_contra hle
    push_neg at hle
    rcases Nat.lt_or_ge t2 t1 with hc | hc
    · have := hp t2 t1 h2 h1 hc
      omega
    · have ht : t1 = t2 := by omega
      subst ht
      omega
  · intro hlt
    exact hp t1 t2 h1 h2 hlt

theorem const_of_no_break (epoch : List Int) (j k : Nat) (hjk : j ≤ k) :
    k < epoch.length →
    (∀ m, j ≤ m → m < k → m ∉ epoch_breaks epoch) →
    epoch.getD j 0 = epoch.getD k 0 := by
  induction k, hjk using Nat.le_induction with
  | base =>
    intro _ _
    rfl
  | succ k hjk ih =>
    intro hk hnb
    have hstep : epoch.getD (k + 1) 0 = epoch.getD k 0 := by
      have hknb := hnb k hjk (by omega)
      rw [mem_epoch_breaks] at hknb
      push_neg at hknb
      exact hknb (by omega)
    rw [hstep]
    exact ih (by omega) (fun m hm1 hm2 => hnb m hm1 (by omega))

theorem epoch_slices_eq (epoch : List Int) :
    epoch_slices epoch =
      (0 :: (epoch_breaks epoch).map (· + 1)).zip
        ((epoch_breaks epoch).map (· + 1) ++ [epoch.length]) := rfl

theorem epoch_slices_length (epoch : List Int) :
    (epoch_slices epoch).length = (epoch_breaks epoch).length + 1 := by
  rw [epoch_slices_eq]
  simp [List.length_zip]

theorem epoch_slices_getD (epoch : List Int) (i : Nat)
    (hi : i < (epoch_breaks epoch).length + 1) :
    (epoch_slices epoch).getD i (0, 0) =
      ((0 :: (epoch_breaks epoch).map (· + 1)).getD i 0,
       ((epoch_breaks epoch).map (· + 1) ++ [epoch.length]).getD i 0) := by
  have h1 : i < (0 :: (epoch_breaks epoch).map (· + 1)).length := by
    simp
    omega
  have h2 : i < ((epoch_breaks epoch).map (· + 1) ++ [epoch.length]).length := by
    simp
    omega
  have h0 : i < (epoch_slices epoch).length := by
    rw [epoch_slices_length]
    omega
  rw [getD_of_lt _ _ _ h0, getD_of_lt _ _ _ h1, getD_of_lt _ _ _ h2]
  simp only [epoch_slices_eq]
  exact List.getElem_zip

theorem starts_getD_succ (epoch : List Int) (t : Nat)
    (ht : t < (epoch_breaks epoch).length) :
    (0 :: (epoch_breaks epoch).map (· + 1)).getD (t + 1) 0 =
      (epoch_breaks epoch).getD t 0 + 1 := by
  rw [List.getD_cons_succ]
  rw [getD_of_lt _ _ _ (by simp [ht]), getD_of_lt _ _ _ ht]
  rw [List.getElem_map]

theorem ends_getD_lt (epoch : List Int) (t : Nat)
    (ht : t < (epoch_breaks epoch).length) :
    ((epoch_breaks epoch).map (· + 1) ++ [epoch.length]).getD t 0 =
      (epoch_breaks epoch).getD t 0 + 1 := by
  rw [getD_of_lt _ _ _ (by simp; omega), getD_of_lt _ _ _ ht]
  rw [List.getElem_append]
  rw [dif_pos (by simp [ht])]
  rw [List.getElem_map]

theorem ends_getD_last (epoch : List Int) :
    ((epoch_breaks epoch).map (· + 1) ++ [epoch.length]).getD
      (epoch_breaks epoch).length 0 = epoch.length := by
  rw [getD_of_lt _ _ _ (by simp)]
  rw [List.getElem_append]
  rw [dif_neg (by simp)]
  simp

theorem no_break_in_slice (epoch : List Int) (i : Nat)
    (hi : i < (epoch_breaks epoch).length + 1) (x : Nat)
    (hx : x ∈ epoch_breaks epoch)
    (hlow : (0 :: (epoch_breaks epoch).map (· + 1)).getD i 0 ≤ x)
    (hhigh : x + 1 < ((epoch_breaks epoch).map (· + 1) ++ [epoch.length]).getD i 0) :
    False := by
  obtain ⟨t, ht, hxt⟩ := List.mem_iff_getElem.mp hx
  have hxt' : (epoch_breaks epoch).getD t 0 = x := by
    rw [getD_of_lt _ _ _ ht]
    exact hxt
  cases i with
  | zero =>
    rcases Nat.lt_or_ge 0 (epoch_breaks epoch).length with hc | hc
    · rw [ends_getD_lt epoch 0 hc] at hhigh
      have hlt : (epoch_breaks epoch).getD t 0 < (epoch_breaks epoch).getD 0 0 := by
        omega
      have := (epoch_breaks_getD_lt_iff epoch t 0 ht hc).mp hlt
      omega
    · omega
  | succ t' =>
    have ht' : t' < (epoch_breaks epoch).length := by omega
    rw [starts_getD_succ epoch t' ht'] at hlow
    have htt : t' < t := by
      have hlt : (epoch_breaks epoch).getD t' 0 < (epoch_breaks epoch).getD t 0 := by
        omega
      exact (epoch_breaks_getD_lt_iff epoch t' t ht' ht).mp hlt
    rcases Nat.lt_or_ge (t' + 1) (epoch_breaks epoch).length with hcase | hcase
    · rw [ends_getD_lt epoch (t' + 1) hcase] at hhigh
      have hlt : (epoch_breaks epoch).getD t 0 <
          (epoch_breaks epoch).getD (t' + 1) 0 := by
        omega
      have := (epoch_breaks_getD_lt_iff epoch t (t' + 1) ht hcase).mp hlt
      omega
    · omega

theorem start_le_break (epoch : List Int) (i : Nat)
    (hi : i < (epoch_breaks epoch).length) :
    (0 :: (epoch_breaks epoch).map (· + 1)).getD i 0 ≤
      (epoch_breaks epoch).getD i 0 := by
  cases i with
  | zero => simp [List.getD_cons_zero]
  | succ t =>
    rw [starts_getD_succ epoch t (by omega)]
    have := (epoch_breaks_getD_lt_iff epoch t (t + 1) (by omega) hi).mpr (by omega)
    omega

/-- C9: for every non-empty ancestor time array, `epoch_slices` is a
list of contiguous half-open `(start, end)` ranges exhaustive over the
ancestor id space: it is non-empty, the first range starts at 0, each
range's end equals the next range's start, the last range ends at
`num_ancestors`, all ancestors within one range share the same time
value, and adjacent ranges have different time values. -/
theorem C9_epoch_slices_partition (epoch : List Int) (hne : epoch ≠ []) :
    1 ≤ (epoch_slices epoch).length ∧
    ((epoch_slices epoch).getD 0 (0, 0)).1 = 0 ∧
    ((epoch_slices epoch).getD ((epoch_slices epoch).length - 1) (0, 0)).2 =
      epoch.length ∧
    (∀ i, i + 1 < (epoch_slices epoch).length →
      ((epoch_slices epoch).getD i (0, 0)).2 =
        ((epoch_slices epoch).getD (i + 1) (0, 0)).1) ∧
    (∀ i, i < (epoch_slices epoch).length →
      ∀ k, k < ((epoch_slices epoch).getD i (0, 0)).2 →
      ∀ j, ((epoch_slices epoch).getD i (0, 0)).1 ≤ j → j ≤ k →
      epoch.getD j 0 = epoch.getD k 0) ∧
    (∀ i, i + 1 < (epoch_slices epoch).length →
      epoch.getD ((epoch_slices epoch).getD i (0, 0)).1 0 ≠
        epoch.getD ((epoch_slices epoch).getD (i + 1) (0, 0)).1 0) := by
  have hm := epoch_slices_length epoch
  have hn : 1 ≤ epoch.length := List.length_pos.mpr hne
  have hconst : ∀ i, i < (epoch_slices epoch).length →
      ∀ k, k < ((epoch_slices epoch).getD i (0, 0)).2 →
      ∀ j, ((epoch_slices epoch).getD i (0, 0)).1 ≤ j → j ≤ k →
      epoch.getD j 0 = epoch.getD k 0 := by
    intro i hi k hk j hj hjk
    rw [epoch_slices_getD epoch i (by omega)] at hk hj
    dsimp only at hk hj
    have hkn : k < epoch.length := by
      rcases Nat.lt_or_ge i (epoch_breaks epoch).length with hc | hc
      · rw [ends_getD_lt epoch i hc] at hk
        have hmem : (epoch_breaks epoch).getD i 0 ∈ epoch_breaks epoch := by
          rw [getD_of_lt _ _ _ hc]
          exact List.getElem_mem hc
        have := (mem_epoch_breaks epoch _).mp hmem
        omega
      · have hieq : i = (epoch_breaks epoch).length := by omega
        subst hieq
        rw [ends_getD_last epoch] at hk
        omega
    refine const_of_no_break epoch j k hjk hkn ?_
    intro mm hm1 hm2 hmem
    exact no_break_in_slice epoch i (by omega) mm hmem (le_trans hj hm1) (by omega)
  refine ⟨by omega, ?_, ?_, ?_, hconst, ?_⟩
  · rw [epoch_slices_getD epoch 0 (by omega)]
    simp [List.getD_cons_zero]
  · rw [hm, Nat.add_sub_cancel]
    rw [epoch_slices_getD epoch (epoch_breaks epoch).length (by omega)]
    dsimp only
    exact ends_getD_last epoch
  · intro i hi
    rw [epoch_slices_getD epoch i (by omega),
      epoch_slices_getD epoch (i + 1) (by omega)]
    dsimp only
    have hiM : i < (epoch_breaks epoch).length := by omega
    rw [ends_getD_lt epoch i hiM, starts_getD_succ epoch i hiM]
  · intro i hi
    have hiM : i < (epoch_breaks epoch).length := by omega
    have hmem : (epoch_breaks epoch).getD i 0 ∈ epoch_breaks epoch := by
      rw [getD_of_lt _ _ _ hiM]
      exact List.getElem_mem hiM
    have hbreak := (mem_epoch_breaks epoch _).mp hmem
    have heq : epoch.getD (((epoch_slices epoch).getD i (0, 0)).1) 0 =
        epoch.getD ((epoch_breaks epoch).getD i 0) 0 := by
      refine hconst i (by omega) ((epoch_breaks epoch).getD i 0) ?_
        (((epoch_slices epoch).getD i (0, 0)).1) (le_refl _) ?_
      · rw [epoch_slices_getD epoch i (by omega)]
        dsimp only
        rw [ends_getD_lt epoch i hiM]
        omega
      · rw [epoch_slices_getD epoch i (by omega)]
        dsimp only
        exact start_le_break epoch i hiM
    rw [heq]
    rw [epoch_slices_getD epoch (i + 1) (by omega)]
    dsimp only
    rw [starts_getD_succ epoch i hiM]
    exact fun hcontra => hbreak.2 hcontra.symm

/-
Lemmas about the tree-sequence builder and the epoch commit (C3, C4, C8).
-/

theorem add_node_num_nodes (b : TreeSequenceBuilder) (t : Int) :
    (b.add_node t).1.num_nodes = b.num_nodes + 1 := by
  unfold TreeSequenceBuilder.add_node TreeSequenceBuilder.num_nodes
  simp

theorem add_node_id (b : TreeSequenceBuilder) (t : Int) :
    (b.add_node t).2 = b.num_nodes := rfl

theorem add_path_num_nodes (b : TreeSequenceBuilder) (nd : Nat)
    (l r p : List Int) : (b.add_path nd l r p).num_nodes = b.num_nodes := rfl

theorem add_mutations_num_nodes (b : TreeSequenceBuilder)
    (s n d : List Int) : (b.add_mutations s n d).num_nodes = b.num_nodes := rfl

theorem add_node_log (b : TreeSequenceBuilder) (t : Int) :
    (b.add_node t).1.log = b.log ++ [BuilderCall.addNode t b.num_nodes] := rfl

theorem add_path_log (b : TreeSequenceBuilder) (nd : Nat) (l r p : List Int) :
    (b.add_path nd l r p).log = b.log ++ [BuilderCall.addPath nd l r p] := rfl

theorem add_mutations_log (b : TreeSequenceBuilder) (s n d : List Int) :
    (b.add_mutations s n d).log = b.log ++ [BuilderCall.addMutations s n d] := rfl

/-- Committing a buffer's mutation views appends exactly its mutation
records to the builder. -/
theorem add_mutations_of_views (b : TreeSequenceBuilder) (rb : ResultBuffer) :
    (b.add_mutations rb.site rb.node rb.derived_state).muts = b.muts ++ rb.muts := by
  unfold TreeSequenceBuilder.add_mutations ResultBuffer.site ResultBuffer.node
    ResultBuffer.derived_state
  simp only [zipMut_map]
  have hid : (fun (m : MutRec) => MutRec.mk m.site m.node m.derived_state) =
      (id : MutRec → MutRec) := rfl
  rw [hid, List.map_id]

/-- Specification of the per-node commit loop: the assigned node ids are
the next `k` sequential ids, the node count grows by exactly `k`, and
the call log gains, for each `i < k` in order, one `addNode` (assigning
id `num_nodes + i`) and one `addPath` for that id carrying the edges
selected by child `c0 + (j0 + i)`, reversed. -/
theorem complete_epoch_loop_spec (rb : ResultBuffer) (ct c0 : Int) :
    ∀ (k j0 : Nat) (tsb : TreeSequenceBuilder),
      (complete_epoch_loop rb ct c0 k j0 tsb).1.num_nodes = tsb.num_nodes + k ∧
      (complete_epoch_loop rb ct c0 k j0 tsb).2 = List.range' tsb.num_nodes k ∧
      (complete_epoch_loop rb ct c0 k j0 tsb).1.log = tsb.log ++
        ((List.range k).map (fun i =>
          [BuilderCall.addNode ct (tsb.num_nodes + i),
           BuilderCall.addPath (tsb.num_nodes + i)
             ((sel_edges rb (c0 + Int.ofNat (j0 + i))).map EdgeRec.left)
             ((sel_edges rb (c0 + Int.ofNat (j0 + i))).map EdgeRec.right)
             ((sel_edges rb (c0 + Int.ofNat (j0 + i))).map EdgeRec.parent)])).flatten ∧
      (complete_epoch_loop rb ct c0 k j0 tsb).1.muts = tsb.muts := by
  intro k
  induction k with
  | zero =>
    intro j0 tsb
    refine ⟨by simp [complete_epoch_loop], by simp [complete_epoch_loop], ?_,
      by simp [complete_epoch_loop]⟩
    simp [complete_epoch_loop]
  | succ k ih =>
    intro j0 tsb
    obtain ⟨ihn, ihi, ihl, ihm⟩ := ih (j0 + 1)
      ((tsb.add_node ct).1.add_path (tsb.add_node ct).2
        ((sel_edges rb (c0 + Int.ofNat j0)).map EdgeRec.left)
        ((sel_edges rb (c0 + Int.ofNat j0)).map EdgeRec.right)
        ((sel_edges rb (c0 + Int.ofNat j0)).map EdgeRec.parent))
    have hred : complete_epoch_loop rb ct c0 (k + 1) j0 tsb =
        ((complete_epoch_loop rb ct c0 k (j0 + 1)
          ((tsb.add_node ct).1.add_path (tsb.add_node ct).2
            ((sel_edges rb (c0 + Int.ofNat j0)).map EdgeRec.left)
            ((sel_edges rb (c0 + Int.ofNat j0)).map EdgeRec.right)
            ((sel_edges rb (c0 + Int.ofNat j0)).map EdgeRec.parent))).1,
          (tsb.add_node ct).2 ::
          (complete_epoch_loop rb ct c0 k (j0 + 1)
          ((tsb.add_node ct).1.add_path (tsb.add_node ct).2
            ((sel_edges rb (c0 + Int.ofNat j0)).map EdgeRec.left)
            ((sel_edges rb (c0 + Int.ofNat j0)).map EdgeRec.right)
            ((sel_edges rb (c0 + Int.ofNat j0)).map EdgeRec.parent))).2) := rfl
    rw [hred]
    have hmid_nodes : ((tsb.add_node ct).1.add_path (tsb.add_node ct).2
        ((sel_edges rb (c0 + Int.ofNat j0)).map EdgeRec.left)
        ((sel_edges rb (c0 + Int.ofNat j0)).map EdgeRec.right)
        ((sel_edges rb (c0 + Int.ofNat j0)).map EdgeRec.parent)).num_nodes =
        tsb.num_nodes + 1 := by
      rw [add_path_num_nodes, add_node_num_nodes]
    refine ⟨?_, ?_, ?_, ?_⟩
    · show (complete_epoch_loop rb ct c0 k (j0 + 1) _).1.num_nodes = _
      rw [ihn, hmid_nodes]
      omega
    · show (tsb.add_node ct).2 :: (complete_epoch_loop rb ct c0 k (j0 + 1) _).2 = _
      rw [ihi, hmid_nodes, add_node_id]
      rw [List.range'_succ]
    · show (complete_epoch_loop rb ct c0 k (j0 + 1) _).1.log = _
      rw [ihl, hmid_nodes, add_path_log, add_node_log, add_node_id]
      rw [List.range_succ_eq_map]
      simp only [List.map_cons, List.flatten_cons, List.map_map]
      have hmapeq : (List.range k).map ((fun i =>
          [BuilderCall.addNode ct (tsb.num_nodes + i),
           BuilderCall.addPath (tsb.num_nodes + i)
             ((sel_edges rb (c0 + Int.ofNat (j0 + i))).map EdgeRec.left)
             ((sel_edges rb (c0 + Int.ofNat (j0 + i))).map EdgeRec.right)
             ((sel_edges rb (c0 + Int.ofNat (j0 + i))).map EdgeRec.parent)]) ∘ Nat.succ) =
          (List.range k).map (fun i =>
          [BuilderCall.addNode ct (tsb.num_nodes + 1 + i),
           BuilderCall.addPath (tsb.num_nodes + 1 + i)
             ((sel_edges rb (c0 + Int.ofNat (j0 + 1 + i))).map EdgeRec.left)
             ((sel_edges rb (c0 + Int.ofNat (j0 + 1 + i))).map EdgeRec.right)
             ((sel_edges rb (c0 + Int.ofNat (j0 + 1 + i))).map EdgeRec.parent)]) := by
        apply List.map_congr_left
        intro i hi
        simp only [Function.comp_apply, Nat.succ_eq_add_one]
        have h1 : tsb.num_nodes + (i + 1) = tsb.num_nodes + 1 + i := by omega
        have h2 : j0 + (i + 1) = j0 + 1 + i := by omega
        rw [h1, h2]
      rw [hmapeq]
      simp
    · show (complete_epoch_loop rb ct c0 k (j0 + 1) _).1.muts = _
      rw [ihm]
      rfl

/-- What a successful `complete_epoch` does: indexes the epoch slice,
merges the thread buffers via `combine`, assigns the next
`end - start` sequential node ids, logs one `addNode` + one `addPath`
(with the child-filtered, reversed edges) per assigned node id in order,
then exactly one trailing bulk `addMutations` carrying the merged
mutation views, appends the merged mutation records to the builder, and
clears every thread buffer. -/
theorem complete_epoch_parts (time : List Int) (slices : List (Nat × Nat))
    (epoch_index : Int) (results : List ResultBuffer)
    (tsb : TreeSequenceBuilder)
    (out : TreeSequenceBuilder × List ResultBuffer × List Nat)
    (h : complete_epoch time slices epoch_index results tsb = Except.ok out) :
    ∃ jj merged,
      pyIndex slices.length epoch_index = some jj ∧
      ResultBuffer.combine results = Except.ok merged ∧
      out.2.2 = List.range' tsb.num_nodes
        ((slices.getD jj (0, 0)).2 - (slices.getD jj (0, 0)).1) ∧
      out.1.num_nodes = tsb.num_nodes +
        ((slices.getD jj (0, 0)).2 - (slices.getD jj (0, 0)).1) ∧
      out.1.muts = tsb.muts ++ merged.muts ∧
      out.2.1 = results.map ResultBuffer.clear ∧
      out.1.log = tsb.log ++
        ((List.range ((slices.getD jj (0, 0)).2 - (slices.getD jj (0, 0)).1)).map
          (fun i =>
            [BuilderCall.addNode (time.getD (slices.getD jj (0, 0)).1 0)
               (tsb.num_nodes + i),
             BuilderCall.addPath (tsb.num_nodes + i)
               ((sel_edges merged (merged.child.headD 0 + Int.ofNat i)).map EdgeRec.left)
               ((sel_edges merged (merged.child.headD 0 + Int.ofNat i)).map EdgeRec.right)
               ((sel_edges merged (merged.child.headD 0 + Int.ofNat i)).map EdgeRec.parent)])).flatten
        ++ [BuilderCall.addMutations merged.site merged.node merged.derived_state] := by
  cases hidx : pyIndex slices.length epoch_index with
  | none =>
    unfold complete_epoch at h
    simp only [hidx] at h
    exact absurd h (by simp)
  | some jj =>
    unfold complete_epoch at h
    simp only [hidx] at h
    cases hcomb : ResultBuffer.combine results with
    | error e =>
      simp only [hcomb] at h
      exact absurd h (by simp)
    | ok merged =>
      simp only [hcomb] at h
      refine ⟨jj, merged, rfl, rfl, ?_⟩
      split at h
      · cases h
      · injection h with h2
        subst h2
        obtain ⟨hln, hli, hll, hlm⟩ := complete_epoch_loop_spec merged
          (time.getD (slices.getD jj (0, 0)).1 0) (merged.child.headD 0)
          ((slices.getD jj (0, 0)).2 - (slices.getD jj (0, 0)).1) 0 tsb
        refine ⟨hli, ?_, ?_, rfl, ?_⟩
        · rw [add_mutations_num_nodes, hln]
        · rw [add_mutations_of_views, hlm]
        · rw [add_mutations_log, hll]
          congr 1
          congr 1
          refine congrArg List.flatten (List.map_congr_left ?_)
          intro i hi
          rw [Nat.zero_add]

/-- C4: a successful `EPOCH_COMMIT` (`complete_epoch`) merges the
per-thread `ResultBuffer`s via `combine` (hypothesis `hcomb` names the
merged buffer), and then — when the merged buffer's first child equals
the next node id to be assigned, which the dispatch loop guarantees by
pre-assigning child ids from `num_nodes` — for each node id assigned in
the epoch, in order, selects exactly the merged edges whose child equals
that node id, reverses their order, and commits them in a single
`add_path` call for that node (immediately after its `add_node`),
followed by exactly one bulk `add_mutations` call covering the whole
epoch's mutations; finally every thread buffer is cleared. -/
theorem C4_epoch_commit (time : List Int) (slices : List (Nat × Nat))
    (epoch_index : Int) (jj : Nat) (results : List ResultBuffer)
    (tsb : TreeSequenceBuilder) (merged : ResultBuffer)
    (out : TreeSequenceBuilder × List ResultBuffer × List Nat)
    (hidx : pyIndex slices.length epoch_index = some jj)
    (hcomb : ResultBuffer.combine results = Except.ok merged)
    (hc0 : merged.child.headD 0 = Int.ofNat tsb.num_nodes)
    (h : complete_epoch time slices epoch_index results tsb = Except.ok out) :
    out.1.log = tsb.log ++
      ((List.range ((slices.getD jj (0, 0)).2 - (slices.getD jj (0, 0)).1)).map
        (fun i =>
          [BuilderCall.addNode (time.getD (slices.getD jj (0, 0)).1 0)
             (tsb.num_nodes + i),
           BuilderCall.addPath (tsb.num_nodes + i)
             ((sel_edges merged (Int.ofNat (tsb.num_nodes + i))).map EdgeRec.left)
             ((sel_edges merged (Int.ofNat (tsb.num_nodes + i))).map EdgeRec.right)
             ((sel_edges merged (Int.ofNat (tsb.num_nodes + i))).map EdgeRec.parent)])).flatten
      ++ [BuilderCall.addMutations merged.site merged.node merged.derived_state] ∧
    out.2.2 = List.range' tsb.num_nodes
      ((slices.getD jj (0, 0)).2 - (slices.getD jj (0, 0)).1) ∧
    out.2.1 = results.map ResultBuffer.clear := by
  obtain ⟨jj2, merged2, hidx2, hcomb2, hids, _, _, hclear, hlog⟩ :=
    complete_epoch_parts time slices epoch_index results tsb out h
  have hjj : jj2 = jj := by
    rw [hidx] at hidx2
    injection hidx2 with h2
    exact h2.symm
  subst hjj
  have hmm : merged2 = merged := by
    rw [hcomb] at hcomb2
    injection hcomb2 with h2
    exact h2.symm
  subst hmm
  refine ⟨?_, hids, hclear⟩
  rw [hlog, hc0]
  rfl

def c4Buf : ResultBuffer :=
  ⟨4, [⟨0, 2, 0, 1⟩, ⟨0, 2, 0, 2⟩], 4, [⟨1, 1, 1⟩], 4⟩

def c4Tsb : TreeSequenceBuilder := ⟨[9], [], [], []⟩

def c4Merged : ResultBuffer :=
  ⟨2, [⟨0, 2, 0, 1⟩, ⟨0, 2, 0, 2⟩], 2, [⟨1, 1, 1⟩], 2⟩

def c4Out : TreeSequenceBuilder × List ResultBuffer × List Nat :=
  (⟨[9, 7, 7], [⟨0, 2, 0, 1⟩, ⟨0, 2, 0, 2⟩], [⟨1, 1, 1⟩],
    [BuilderCall.addNode 7 1, BuilderCall.addPath 1 [0] [2] [0],
     BuilderCall.addNode 7 2, BuilderCall.addPath 2 [0] [2] [0],
     BuilderCall.addMutations [1] [1] [1]]⟩,
   [⟨4, [], 4, [], 4⟩], [1, 2])

/-- Witness for C4 at a concrete two-ancestor epoch: slice `(1, 3)` at
time 7, one thread buffer with one edge per child. -/
theorem C4_epoch_commit_witness :
    c4Out.1.log = c4Tsb.log ++
      ((List.range (((([((1:Nat), (3:Nat))] : List (Nat × Nat))).getD 0 (0, 0)).2 -
          ((([((1:Nat), (3:Nat))] : List (Nat × Nat))).getD 0 (0, 0)).1)).map
        (fun i =>
          [BuilderCall.addNode (([9, 7, 7] : List Int).getD
              ((([((1:Nat), (3:Nat))] : List (Nat × Nat))).getD 0 (0, 0)).1 0)
             (c4Tsb.num_nodes + i),
           BuilderCall.addPath (c4Tsb.num_nodes + i)
             ((sel_edges c4Merged (Int.ofNat (c4Tsb.num_nodes + i))).map EdgeRec.left)
             ((sel_edges c4Merged (Int.ofNat (c4Tsb.num_nodes + i))).map EdgeRec.right)
             ((sel_edges c4Merged (Int.ofNat (c4Tsb.num_nodes + i))).map EdgeRec.parent)])).flatten
      ++ [BuilderCall.addMutations c4Merged.site c4Merged.node c4Merged.derived_state] ∧
    c4Out.2.2 = List.range' c4Tsb.num_nodes
      (((([((1:Nat), (3:Nat))] : List (Nat × Nat))).getD 0 (0, 0)).2 -
       ((([((1:Nat), (3:Nat))] : List (Nat × Nat))).getD 0 (0, 0)).1) ∧
    c4Out.2.1 = [c4Buf].map ResultBuffer.clear :=
  C4_epoch_commit [9, 7, 7] [((1:Nat), (3:Nat))] 0 0 [c4Buf] c4Tsb c4Merged c4Out
    (by rfl) (by rfl) (by rfl) (by rfl)

def c9Epoch : List Int := [5, 5, 3, 3, 3, 2]

/-- Witness for C9 at a concrete time array with three epochs. -/
theorem C9_epoch_slices_partition_witness :
    1 ≤ (epoch_slices c9Epoch).length ∧
    ((epoch_slices c9Epoch).getD 0 (0, 0)).1 = 0 ∧
    ((epoch_slices c9Epoch).getD ((epoch_slices c9Epoch).length - 1) (0, 0)).2 =
      c9Epoch.length ∧
    (∀ i, i + 1 < (epoch_slices c9Epoch).length →
      ((epoch_slices c9Epoch).getD i (0, 0)).2 =
        ((epoch_slices c9Epoch).getD (i + 1) (0, 0)).1) ∧
    (∀ i, i < (epoch_slices c9Epoch).length →
      ∀ k, k < ((epoch_slices c9Epoch).getD i (0, 0)).2 →
      ∀ j, ((epoch_slices c9Epoch).getD i (0, 0)).1 ≤ j → j ≤ k →
      c9Epoch.getD j 0 = c9Epoch.getD k 0) ∧
    (∀ i, i + 1 < (epoch_slices c9Epoch).length →
      c9Epoch.getD ((epoch_slices c9Epoch).getD i (0, 0)).1 0 ≠
        c9Epoch.getD ((epoch_slices c9Epoch).getD (i + 1) (0, 0)).1 0) :=
  C9_epoch_slices_partition c9Epoch (by decide)

/-
Node-id monotonicity across epochs (C3).
-/

/-- The trace of node ids assigned per epoch forms consecutive blocks:
each epoch's ids are the next sequential ids after everything assigned
before it. -/
def node_id_blocks : Nat → List (List Nat) → Prop
  | _, [] => True
  | n, ids :: rest => ∃ c, ids = List.range' n c ∧ node_id_blocks (n + c) rest

/-- Extract the per-epoch node id trace of a run (empty on failure). -/
def trace_of (e : Except String (TreeSequenceBuilder × List (List Nat))) :
    List (List Nat) :=
  match e with
  | Except.ok out => out.2
  | Except.error _ => []

/-- A successful epoch loop assigns node ids in consecutive blocks
starting from the builder's current node count. -/
theorem match_epochs_blocks (ad : AncestorData) (fp : FindPath)
    (slices : List (Nat × Nat)) :
    ∀ (idxs : List Int) (tsb : TreeSequenceBuilder) (rb : ResultBuffer)
      (haps : List (List Nat)) (out : TreeSequenceBuilder × List (List Nat)),
      match_epochs ad fp slices idxs tsb rb haps = Except.ok out →
      node_id_blocks tsb.num_nodes out.2 := by
  intro idxs
  induction idxs with
  | nil =>
    intro tsb rb haps out h
    unfold match_epochs at h
    injection h with h2
    subst h2
    exact trivial
  | cons j rest ih =>
    intro tsb rb haps out h
    unfold match_epochs at h
    cases hidx : pyIndex slices.length j with
    | none =>
      simp only [hidx] at h
      exact absurd h (by simp)
    | some jj =>
      simp only [hidx] at h
      cases hdisp : dispatch_epoch ad fp
          ((slices.getD jj (0, 0)).2 - (slices.getD jj (0, 0)).1)
          (slices.getD jj (0, 0)).1 tsb.num_nodes haps rb with
      | error e =>
        simp only [hdisp] at h
        exact absurd h (by simp)
      | ok rbh =>
        simp only [hdisp] at h
        cases hce : complete_epoch ad.time slices j [rbh.1] tsb with
        | error e =>
          simp only [hce] at h
          exact absurd h (by simp)
        | ok tri =>
          simp only [hce] at h
          cases hrec : match_epochs ad fp slices rest tri.1
              (tri.2.1.headD rbh.1.clear) rbh.2 with
          | error e =>
            simp only [hrec] at h
            exact absurd h (by simp)
          | ok fin =>
            simp only [hrec] at h
            injection h with h2
            subst h2
            obtain ⟨jj2, merged2, _, _, hids, hnodes, _, _, _⟩ :=
              complete_epoch_parts ad.time slices j [rbh.1] tsb tri hce
            refine ⟨(slices.getD jj2 (0, 0)).2 - (slices.getD jj2 (0, 0)).1,
              hids, ?_⟩
            have := ih tri.1 (tri.2.1.headD rbh.1.clear) rbh.2 fin hrec
            rw [hnodes] at this
            exact this

theorem blocks_lower (tr : List (List Nat)) :
    ∀ (n : Nat), node_id_blocks n tr →
      ∀ i, i < tr.length → ∀ b ∈ tr.getD i [], n ≤ b := by
  induction tr with
  | nil =>
    intro n _ i hi
    simp at hi
  | cons ids rest ih =>
    intro n h i hi b hb
    obtain ⟨c, hids, hrest⟩ := h
    cases i with
    | zero =>
      rw [List.getD_cons_zero] at hb
      subst hids
      exact (List.mem_range'_1.mp hb).1
    | succ i2 =>
      rw [List.getD_cons_succ] at hb
      have := ih (n + c) hrest i2 (by simpa using hi) b hb
      omega

theorem blocks_cross (tr : List (List Nat)) :
    ∀ (n : Nat), node_id_blocks n tr →
      ∀ jj, jj < tr.length → ∀ ii, ii < jj →
        ∀ a ∈ tr.getD ii [], ∀ b ∈ tr.getD jj [], a < b := by
  induction tr with
  | nil =>
    intro n _ jj hjj
    simp at hjj
  | cons ids rest ih =>
    intro n h jj hjj ii hii a ha b hb
    obtain ⟨c, hids, hrest⟩ := h
    cases jj with
    | zero => omega
    | succ j2 =>
      rw [List.getD_cons_succ] at hb
      cases ii with
      | zero =>
        rw [List.getD_cons_zero] at ha
        subst hids
        have ha2 := List.mem_range'_1.mp ha
        have hb2 := blocks_lower rest (n + c) hrest j2 (by simpa using hjj) b hb
        omega
      | succ i2 =>
        rw [List.getD_cons_succ] at ha
        exact ih (n + c) hrest j2 (by simpa using hjj) i2 (by omega) a ha b hb

theorem blocks_lower_flatten (tr : List (List Nat)) :
    ∀ (n : Nat), node_id_blocks n tr → ∀ b ∈ tr.flatten, n ≤ b := by
  induction tr with
  | nil =>
    intro n _ b hb
    simp at hb
  | cons ids rest ih =>
    intro n h b hb
    obtain ⟨c, hids, hrest⟩ := h
    rw [List.flatten_cons, List.mem_append] at hb
    cases hb with
    | inl hb =>
      subst hids
      exact (List.mem_range'_1.mp hb).1
    | inr hb =>
      have := ih (n + c) hrest b hb
      omega

theorem blocks_pairwise (tr : List (List Nat)) :
    ∀ (n : Nat), node_id_blocks n tr → List.Pairwise (· < ·) tr.flatten := by
  induction tr with
  | nil =>
    intro n _
    simp
  | cons ids rest ih =>
    intro n h
    obtain ⟨c, hids, hrest⟩ := h
    rw [List.flatten_cons]
    refine List.pairwise_append.mpr ⟨?_, ih (n + c) hrest, ?_⟩
    · subst hids
      exact List.pairwise_lt_range' n c
    · intro a ha b hb
      subst hids
      have ha2 := List.mem_range'_1.mp ha
      have hb2 := blocks_lower_flatten rest (n + c) hrest b hb
      omega

theorem blocks_getD_range (tr : List (List Nat)) :
    ∀ (n : Nat), node_id_blocks n tr → ∀ i, i < tr.length →
      tr.getD i [] = List.range' ((tr.getD i []).headD 0) (tr.getD i []).length := by
  induction tr with
  | nil =>
    intro n _ i hi
    simp at hi
  | cons ids rest ih =>
    intro n h i hi
    obtain ⟨c, hids, hrest⟩ := h
    cases i with
    | zero =>
      rw [List.getD_cons_zero]
      subst hids
      rw [List.length_range']
      cases c with
      | zero => rfl
      | succ c2 => rfl
    | succ i2 =>
      rw [List.getD_cons_succ]
      exact ih (n + c) hrest i2 (by simpa using hi)

/-- C3: in any successful (fresh or resumed) single-threaded epoch loop,
the per-epoch trace of node ids assigned by `add_node` during commit
satisfies: within each epoch the ids are sequential in ancestor
discovery order (each epoch's id list is a `range'` starting at its
first id), every id assigned in a later epoch is strictly greater than
every id assigned in an earlier epoch, and no id is ever reused (the
whole trace is strictly increasing). -/
theorem C3_node_id_monotonicity (ad : AncestorData) (fp : FindPath)
    (slices : List (Nat × Nat)) (idxs : List Int) (tsb : TreeSequenceBuilder)
    (rb : ResultBuffer) (haps : List (List Nat))
    (h : (match_epochs ad fp slices idxs tsb rb haps).isOk = true) :
    (∀ i, i < (trace_of (match_epochs ad fp slices idxs tsb rb haps)).length →
      (trace_of (match_epochs ad fp slices idxs tsb rb haps)).getD i [] =
        List.range'
          (((trace_of (match_epochs ad fp slices idxs tsb rb haps)).getD i []).headD 0)
          ((trace_of (match_epochs ad fp slices idxs tsb rb haps)).getD i []).length) ∧
    (∀ jj, jj < (trace_of (match_epochs ad fp slices idxs tsb rb haps)).length →
      ∀ ii, ii < jj →
      ∀ a ∈ (trace_of (match_epochs ad fp slices idxs tsb rb haps)).getD ii [],
      ∀ b ∈ (trace_of (match_epochs ad fp slices idxs tsb rb haps)).getD jj [],
      a < b) ∧
    List.Pairwise (· < ·)
      (trace_of (match_epochs ad fp slices idxs tsb rb haps)).flatten := by
  cases hrun : match_epochs ad fp slices idxs tsb rb haps with
  | error e =>
    rw [hrun] at h
    simp [Except.isOk, Except.toBool] at h
  | ok out =>
    have hblocks := match_epochs_blocks ad fp slices idxs tsb rb haps out hrun
    have htr : trace_of (Except.ok out :
        Except String (TreeSequenceBuilder × List (List Nat))) = out.2 := rfl
    rw [htr]
    exact ⟨blocks_getD_range out.2 tsb.num_nodes hblocks,
      fun jj hjj ii hii => blocks_cross out.2 tsb.num_nodes hblocks jj hjj ii hii,
      blocks_pairwise out.2 tsb.num_nodes hblocks⟩

def c3Ad : AncestorData := ⟨[2, 1], [[], []], [0, 0], [1, 1], [[0], [0]]⟩

def c3Fp : FindPath := fun h s e => ⟨[Int.ofNat s], [Int.ofNat e], [0], h⟩

def c3Rb : ResultBuffer := ⟨1024, [], 1024, [], 1024⟩

def c3Tsb : TreeSequenceBuilder := (TreeSequenceBuilder.empty.add_node 2).1

/-- Witness for C3: a fresh two-ancestor run (times `[2, 1]`, root
inserted for ancestor 0, epoch 1 matched) succeeds and its node-id trace
satisfies all three monotonicity properties. -/
theorem C3_node_id_monotonicity_witness :
    (∀ i, i < (trace_of (match_epochs c3Ad c3Fp (epoch_slices c3Ad.time) [1]
        c3Tsb c3Rb [[0]])).length →
      (trace_of (match_epochs c3Ad c3Fp (epoch_slices c3Ad.time) [1]
        c3Tsb c3Rb [[0]])).getD i [] =
        List.range'
          (((trace_of (match_epochs c3Ad c3Fp (epoch_slices c3Ad.time) [1]
            c3Tsb c3Rb [[0]])).getD i []).headD 0)
          ((trace_of (match_epochs c3Ad c3Fp (epoch_slices c3Ad.time) [1]
            c3Tsb c3Rb [[0]])).getD i []).length) ∧
    (∀ jj, jj < (trace_of (match_epochs c3Ad c3Fp (epoch_slices c3Ad.time) [1]
        c3Tsb c3Rb [[0]])).length →
      ∀ ii, ii < jj →
      ∀ a ∈ (trace_of (match_epochs c3Ad c3Fp (epoch_slices c3Ad.time) [1]
        c3Tsb c3Rb [[0]])).getD ii [],
      ∀ b ∈ (trace_of (match_epochs c3Ad c3Fp (epoch_slices c3Ad.time) [1]
        c3Tsb c3Rb [[0]])).getD jj [],
      a < b) ∧
    List.Pairwise (· < ·)
      (trace_of (match_epochs c3Ad c3Fp (epoch_slices c3Ad.time) [1]
        c3Tsb c3Rb [[0]])).flatten :=
  C3_node_id_monotonicity c3Ad c3Fp (epoch_slices c3Ad.time) [1] c3Tsb c3Rb [[0]]
    (by rfl)

/-
Focal-site handling (C8).
-/

theorem wrapU32_fits (x : Int) : fitsU32 (wrapU32 x) := by
  unfold fitsU32 wrapU32
  constructor
  · exact Int.emod_nonneg x (by norm_num)
  · exact Int.emod_lt_of_pos x (by norm_num)

theorem wrapI32_fits (x : Int) : fitsI32 (wrapI32 x) := by
  unfold fitsI32 wrapI32
  have h1 : 0 ≤ (x + 2 ^ 31) % (2 ^ 32 : Int) :=
    Int.emod_nonneg _ (by norm_num)
  have h2 : (x + 2 ^ 31) % (2 ^ 32 : Int) < 2 ^ 32 :=
    Int.emod_lt_of_pos _ (by norm_num)
  omega

theorem wrapI8_fits (x : Int) : fitsI8 (wrapI8 x) := by
  unfold fitsI8 wrapI8
  have h1 : 0 ≤ (x + 2 ^ 7) % (2 ^ 8 : Int) :=
    Int.emod_nonneg _ (by norm_num)
  have h2 : (x + 2 ^ 7) % (2 ^ 8 : Int) < 2 ^ 8 :=
    Int.emod_lt_of_pos _ (by norm_num)
  omega

theorem storeEdge_fits (l r p c : Int) : (storeEdge l r p c).Fits :=
  ⟨wrapU32_fits l, wrapU32_fits r, wrapI32_fits p, wrapI32_fits c⟩

theorem storeMut_fits (s n d : Int) : (storeMut s n d).Fits :=
  ⟨wrapU32_fits s, wrapI32_fits n, wrapI8_fits d⟩

theorem edgeRecs_fits (op : BufOp) : ∀ e ∈ op.edgeRecs, e.Fits := by
  intro e he
  cases op with
  | addEdges l r p c =>
    simp only [BufOp.edgeRecs] at he
    rw [zipEdge_store] at he
    obtain ⟨e0, _, he0⟩ := List.mem_map.mp he
    rw [← he0]
    exact storeEdge_fits _ _ _ _
  | addMutations s n d => simp [BufOp.edgeRecs] at he
  | addBackMutation s n => simp [BufOp.edgeRecs] at he

theorem mutRecs_fits (op : BufOp) : ∀ m ∈ op.mutRecs, m.Fits := by
  intro m hm
  cases op with
  | addEdges l r p c => simp [BufOp.mutRecs] at hm
  | addMutations s n d =>
    simp only [BufOp.mutRecs] at hm
    rw [zipMut_store] at hm
    obtain ⟨m0, _, hm0⟩ := List.mem_map.mp hm
    rw [← hm0]
    exact storeMut_fits _ _ _
  | addBackMutation s n =>
    simp only [BufOp.mutRecs, List.mem_singleton] at hm
    rw [hm]
    exact storeMut_fits _ _ _

/-- Every append call preserves well-formedness: stored records always
fit their dtypes. -/
theorem applyBufOp_wf (b : ResultBuffer) (op : BufOp) (b2 : ResultBuffer)
    (hwf : b.WF) (h : applyBufOp b op = Except.ok b2) : b2.WF := by
  obtain ⟨_, _, _, he, hm⟩ := applyBufOp_ok b op b2 h
  constructor
  · rw [he]
    intro e hmem
    rcases List.mem_append.mp hmem with hc | hc
    · exact hwf.1 e hc
    · exact edgeRecs_fits op e hc
  · rw [hm]
    intro m hmem
    rcases List.mem_append.mp hmem with hc | hc
    · exact hwf.2 m hc
    · exact mutRecs_fits op m hc

theorem getD_set_zero (x : List Nat) (g f : Nat) :
    (x.set g 0).getD f 0 = if f = g then 0 else x.getD f 0 := by
  rw [List.getD_eq_getElem?_getD, List.getD_eq_getElem?_getD]
  rw [List.getElem?_set]
  split
  · rename_i hgf
    subst hgf
    split
    · simp
    · simp
  · rename_i hgf
    rw [if_neg (fun hc => hgf hc.symm)]

theorem foldl_set_zero_still (focal : List Nat) :
    ∀ (x : List Nat) (f : Nat), x.getD f 0 = 0 →
      (focal.foldl (fun h g => h.set g 0) x).getD f 0 = 0 := by
  induction focal with
  | nil =>
    intro x f hx
    exact hx
  | cons g gs ih =>
    intro x f hx
    show (gs.foldl (fun h g => h.set g 0) (x.set g 0)).getD f 0 = 0
    refine ih (x.set g 0) f ?_
    rw [getD_set_zero]
    split
    · rfl
    · exact hx

theorem foldl_set_zero (focal : List Nat) :
    ∀ (x : List Nat) (f : Nat), f ∈ focal →
      (focal.foldl (fun h g => h.set g 0) x).getD f 0 = 0 := by
  induction focal with
  | nil =>
    intro x f hf
    simp at hf
  | cons g gs ih =>
    intro x f hf
    show (gs.foldl (fun h g => h.set g 0) (x.set g 0)).getD f 0 = 0
    rcases List.mem_cons.mp hf with hc | hc
    · subst hc
      refine foldl_set_zero_still gs (x.set f 0) f ?_
      rw [getD_set_zero]
      simp
    · exact ih (x.set g 0) f hc

/-- `add_mutations` with a scalar node and defaulted derived state never
fails and appends one record with derived state 1 per site. -/
theorem add_mutations_scalar (b : ResultBuffer) (sites : List Int) (v : Int) :
    b.add_mutations sites (ColArg.scalar v) none =
      Except.ok { b.check_mutations_size sites.length with
        muts := (b.check_mutations_size sites.length).muts ++
          zipMut storeMut sites (List.replicate sites.length v)
            (List.replicate sites.length 1) } := by
  unfold ResultBuffer.add_mutations ColArg.broadcast
  simp

theorem except_bind_ok {α β : Type} (a : α) (f : α → Except String β) :
    ((Except.ok a : Except String α) >>= f) = f a := rfl

theorem matcher_find_path_eq (fp : FindPath) (cid : Nat) (hap : List Nat)
    (s e : Nat) (rb : ResultBuffer) :
    matcher_find_path fp cid hap s e rb =
      match rb.add_edges (fp hap s e).left (fp hap s e).right (fp hap s e).parent
          (ColArg.scalar (Int.ofNat cid)) with
      | Except.error msg => Except.error msg
      | Except.ok rbE => Except.ok (rbE, fp hap s e) := by
  simp only [matcher_find_path]
  cases hae : rb.add_edges (fp hap s e).left (fp hap s e).right (fp hap s e).parent
      (ColArg.scalar (Int.ofNat cid)) with
  | error msg => rfl
  | ok rbE => rfl

/-- What a successful `__ancestor_find_path` guarantees: the pre-match
assertion that every focal site holds the derived allele 1; the returned
haplotype is the input with every focal site reset to 0; the matcher's
scratch array equals that reset haplotype (asserted); the buffer gains
exactly one mutation record per focal site for the node, before the
edges; and well-formedness is preserved. -/
theorem ancestor_find_path_spec (ad : AncestorData) (fp : FindPath)
    (aid nid : Nat) (hap : List Nat) (rb rb2 : ResultBuffer) (hap2 : List Nat)
    (h : ancestor_find_path ad fp aid nid hap rb = Except.ok (rb2, hap2)) :
    (∀ f ∈ ad.focal_sites.getD aid [], hap.getD f 0 = 1) ∧
    hap2 = (ad.focal_sites.getD aid []).foldl (fun x f => x.set f 0) hap ∧
    (fp hap (ad.start.getD aid 0) (ad.end_.getD aid 0)).matched = hap2 ∧
    rb2.muts = rb.muts ++
      zipMut storeMut ((ad.focal_sites.getD aid []).map Int.ofNat)
        (List.replicate ((ad.focal_sites.getD aid []).map Int.ofNat).length
          (Int.ofNat nid))
        (List.replicate ((ad.focal_sites.getD aid []).map Int.ofNat).length 1) ∧
    (rb.WF → rb2.WF) := by
  simp only [ancestor_find_path] at h
  rw [add_mutations_scalar, except_bind_ok] at h
  split at h
  case isFalse => exact absurd h (by simp)
  case isTrue hcond =>
    rw [matcher_find_path_eq] at h
    cases hae : ({ rb.check_mutations_size
          ((ad.focal_sites.getD aid []).map Int.ofNat).length with
        muts := (rb.check_mutations_size
          ((ad.focal_sites.getD aid []).map Int.ofNat).length).muts ++
          zipMut storeMut ((ad.focal_sites.getD aid []).map Int.ofNat)
            (List.replicate ((ad.focal_sites.getD aid []).map Int.ofNat).length
              (Int.ofNat nid))
            (List.replicate ((ad.focal_sites.getD aid []).map Int.ofNat).length 1)
        : ResultBuffer }).add_edges
        (fp hap (ad.start.getD aid 0) (ad.end_.getD aid 0)).left
        (fp hap (ad.start.getD aid 0) (ad.end_.getD aid 0)).right
        (fp hap (ad.start.getD aid 0) (ad.end_.getD aid 0)).parent
        (ColArg.scalar (Int.ofNat nid)) with
    | error msg =>
      simp only [hae] at h
      exact absurd h (by simp)
    | ok rbE =>
      simp only [hae] at h
      split at h
      case isFalse => exact absurd h (by simp)
      case isTrue hmeq =>
        injection h with hpair
        injection hpair with hfst hsnd
        have hC : ∀ f ∈ ad.focal_sites.getD aid [], hap.getD f 0 = 1 := by
          have hc3 := (Bool.and_eq_true _ _).mp hcond
          have hc4 := hc3.2
          intro f hf
          exact of_decide_eq_true (List.all_eq_true.mp hc4 f hf)
        refine ⟨hC, hsnd.symm, ?_, ?_, ?_⟩
        · rw [← hsnd]
          exact hmeq
        · rw [← hfst]
          have hstep := applyBufOp_ok _
            (BufOp.addEdges
              (fp hap (ad.start.getD aid 0) (ad.end_.getD aid 0)).left
              (fp hap (ad.start.getD aid 0) (ad.end_.getD aid 0)).right
              (fp hap (ad.start.getD aid 0) (ad.end_.getD aid 0)).parent
              (ColArg.scalar (Int.ofNat nid))) rbE hae
          rw [hstep.2.2.2.2]
          simp only [BufOp.mutRecs, List.append_nil]
          have hf := check_mutations_size_fields rb
            ((ad.focal_sites.getD aid []).map Int.ofNat).length
          show (rb.check_mutations_size
              ((ad.focal_sites.getD aid []).map Int.ofNat).length).muts ++ _ = _
          rw [hf.2.2.2]
        · intro hwf
          rw [← hfst]
          refine applyBufOp_wf _
            (BufOp.addEdges
              (fp hap (ad.start.getD aid 0) (ad.end_.getD aid 0)).left
              (fp hap (ad.start.getD aid 0) (ad.end_.getD aid 0)).right
              (fp hap (ad.start.getD aid 0) (ad.end_.getD aid 0)).parent
              (ColArg.scalar (Int.ofNat nid))) rbE ?_ hae
          refine applyBufOp_wf rb
            (BufOp.addMutations ((ad.focal_sites.getD aid []).map Int.ofNat)
              (ColArg.scalar (Int.ofNat nid)) none) _ hwf ?_
          exact add_mutations_scalar rb _ _

/-- C8: for every ancestor haplotype successfully processed by
`__ancestor_find_path` and committed by `__complete_epoch`: every focal
site held the derived allele 1 before matching (asserted); every focal
site is reset to the ancestral state 0 in the returned haplotype and in
the post-match scratch haplotype (asserted equal); the thread buffer
gains exactly one mutation record `(site=f, node=node_id,
derived_state=1)` per focal site; and each of those records is present
in the committed builder output. -/
theorem C8_focal_sites (ad : AncestorData) (fp : FindPath) (aid nid : Nat)
    (hap : List Nat) (rb rb2 : ResultBuffer) (hap2 : List Nat)
    (time : List Int) (slices : List (Nat × Nat)) (epoch_index : Int)
    (tsb : TreeSequenceBuilder)
    (out : TreeSequenceBuilder × List ResultBuffer × List Nat)
    (hwf : rb.WF)
    (hfr : ∀ f ∈ ad.focal_sites.getD aid [], f < 2 ^ 32)
    (hnr : nid < 2 ^ 31)
    (hfind : ancestor_find_path ad fp aid nid hap rb = Except.ok (rb2, hap2))
    (hcommit : complete_epoch time slices epoch_index [rb2] tsb = Except.ok out) :
    (∀ f ∈ ad.focal_sites.getD aid [], hap.getD f 0 = 1) ∧
    (∀ f ∈ ad.focal_sites.getD aid [], hap2.getD f 0 = 0) ∧
    (∀ f ∈ ad.focal_sites.getD aid [],
      (fp hap (ad.start.getD aid 0) (ad.end_.getD aid 0)).matched.getD f 0 = 0) ∧
    rb2.muts = rb.muts ++ (ad.focal_sites.getD aid []).map
      (fun f => MutRec.mk (Int.ofNat f) (Int.ofNat nid) 1) ∧
    (∀ f ∈ ad.focal_sites.getD aid [],
      MutRec.mk (Int.ofNat f) (Int.ofNat nid) 1 ∈ out.1.muts) := by
  obtain ⟨hpre, hh2, hmatch, hmuts, hwfstep⟩ :=
    ancestor_find_path_spec ad fp aid nid hap rb rb2 hap2 hfind
  have hrecs : zipMut storeMut ((ad.focal_sites.getD aid []).map Int.ofNat)
      (List.replicate ((ad.focal_sites.getD aid []).map Int.ofNat).length
        (Int.ofNat nid))
      (List.replicate ((ad.focal_sites.getD aid []).map Int.ofNat).length 1) =
      (ad.focal_sites.getD aid []).map
        (fun f => MutRec.mk (Int.ofNat f) (Int.ofNat nid) 1) := by
    rw [List.length_map]
    rw [← List.map_const' (ad.focal_sites.getD aid []) (Int.ofNat nid),
      ← List.map_const' (ad.focal_sites.getD aid []) (1 : Int)]
    rw [zipMut_map]
    refine List.map_congr_left ?_
    intro f hf
    refine @storeMut_eq_self ⟨Int.ofNat f, Int.ofNat nid, 1⟩ ?_
    have h1 := hfr f hf
    show fitsU32 (Int.ofNat f) ∧ fitsI32 (Int.ofNat nid) ∧ fitsI8 1
    unfold fitsU32 fitsI32 fitsI8
    simp only [Int.ofNat_eq_natCast]
    omega
  have hmuts2 : rb2.muts = rb.muts ++ (ad.focal_sites.getD aid []).map
      (fun f => MutRec.mk (Int.ofNat f) (Int.ofNat nid) 1) := by
    rw [hmuts, hrecs]
  refine ⟨hpre, ?_, ?_, hmuts2, ?_⟩
  · intro f hf
    rw [hh2]
    exact foldl_set_zero (ad.focal_sites.getD aid []) hap f hf
  · intro f hf
    rw [hmatch, hh2]
    exact foldl_set_zero (ad.focal_sites.getD aid []) hap f hf
  · intro f hf
    obtain ⟨jj2, merged2, _, hcomb2, _, _, hom, _, _⟩ :=
      complete_epoch_parts time slices epoch_index [rb2] tsb out hcommit
    have hwf2 : rb2.WF := hwfstep hwf
    obtain ⟨_, hmflat, _⟩ := combine_spec [rb2] merged2
      (by
        intro r hr
        rw [List.mem_singleton] at hr
        rw [hr]
        exact hwf2) hcomb2
    rw [hom, hmflat]
    refine List.mem_append.mpr (Or.inr ?_)
    have : merged2.muts = rb2.muts := by
      rw [hmflat]
      simp
    simp only [List.map_cons, List.map_nil, List.flatten_cons, List.flatten_nil,
      List.append_nil]
    rw [hmuts2]
    refine List.mem_append.mpr (Or.inr ?_)
    exact List.mem_map.mpr ⟨f, hf, rfl⟩

def c8Ad : AncestorData := ⟨[3, 2], [[], [0]], [0, 0], [2, 2], [[0, 0], [1, 1]]⟩

def c8Fp : FindPath := fun h _ _ => ⟨[0], [2], [0], h.set 0 0⟩

def c8Rb : ResultBuffer := ⟨4, [], 4, [], 4⟩

def c8Rb2 : ResultBuffer := ⟨4, [⟨0, 2, 0, 1⟩], 4, [⟨0, 1, 1⟩], 4⟩

def c8Tsb : TreeSequenceBuilder := ⟨[3], [], [], []⟩

def c8Out : TreeSequenceBuilder × List ResultBuffer × List Nat :=
  (⟨[3, 2], [⟨0, 2, 0, 1⟩], [⟨0, 1, 1⟩],
    [BuilderCall.addNode 2 1, BuilderCall.addPath 1 [0] [2] [0],
     BuilderCall.addMutations [0] [1] [1]]⟩,
   [⟨4, [], 4, [], 4⟩], [1])

/-- Witness for C8: ancestor 1 with focal site 0, haplotype `[1, 1]`,
matched and committed. -/
theorem C8_focal_sites_witness :
    (∀ f ∈ c8Ad.focal_sites.getD 1 [], ([1, 1] : List Nat).getD f 0 = 1) ∧
    (∀ f ∈ c8Ad.focal_sites.getD 1 [], ([0, 1] : List Nat).getD f 0 = 0) ∧
    (∀ f ∈ c8Ad.focal_sites.getD 1 [],
      (c8Fp [1, 1] (c8Ad.start.getD 1 0) (c8Ad.end_.getD 1 0)).matched.getD f 0 = 0) ∧
    c8Rb2.muts = c8Rb.muts ++ (c8Ad.focal_sites.getD 1 []).map
      (fun f => MutRec.mk (Int.ofNat f) (Int.ofNat 1) 1) ∧
    (∀ f ∈ c8Ad.focal_sites.getD 1 [],
      MutRec.mk (Int.ofNat f) (Int.ofNat 1) 1 ∈ c8Out.1.muts) :=
  C8_focal_sites c8Ad c8Fp 1 1 [1, 1] c8Rb c8Rb2 [0, 1] [3, 2] [((1:Nat), (2:Nat))] 0
    c8Tsb c8Out (by decide) (by decide) (by decide) (by rfl) (by rfl)

/-
Checkpoint/resume (C7).
-/

def c7Ad : AncestorData :=
  ⟨[5, 4, 3], [[], [], []], [0, 0, 0], [1, 1, 1], [[0], [0], [0]]⟩

def c7Fp : FindPath := fun h s e => ⟨[Int.ofNat s], [Int.ofNat e], [0], h⟩

/-- The builder state checkpointed after completing the first matched
epoch (epoch index 1) of the fresh run on `c7Ad`: the restore of that
checkpoint is modelled as the identity on the builder state. -/
def c7CpTsb : TreeSequenceBuilder :=
  match match_epochs c7Ad c7Fp (epoch_slices c7Ad.time) [1]
      ((TreeSequenceBuilder.empty.add_node (c7Ad.time.getD 0 0)).1)
      ⟨1024, [], 1024, [], 1024⟩ (c7Ad.haplotypes.drop 1) with
  | Except.ok out => out.1
  | Except.error _ => TreeSequenceBuilder.empty

/-- C7 (behavior of the code at the failing input): with ancestor times
`[5, 4, 3]` (three one-ancestor epochs), the uninterrupted
single-threaded run succeeds, but resuming from the checkpoint taken
after the first matched epoch aborts with `StopIteration` instead of
reproducing the same final structure: the restored node count is 2 and
the resume arithmetic `start_epoch = num_epochs - epoch[first_ancestor]
+ 1 = 3 - 3 + 1 = 1` re-enters epoch 1, although the first unmatched
ancestor (id 2) lies in epoch slice 2, so the epoch loop runs one epoch
too many for the remaining haplotype stream. -/
theorem C7_resume_off_by_one :
    (match_ancestors_single_threaded c7Ad c7Fp false TreeSequenceBuilder.empty).isOk
      = true ∧
    match_ancestors_single_threaded c7Ad c7Fp true c7CpTsb =
      Except.error "StopIteration" ∧
    (match_ancestors_single_threaded c7Ad c7Fp true c7CpTsb).isOk = false ∧
    c7CpTsb.num_nodes = 2 ∧
    Int.ofNat (epoch_slices c7Ad.time).length -
      c7Ad.time.getD c7CpTsb.num_nodes 0 + 1 = 1 ∧
    ((epoch_slices c7Ad.time).getD 2 (0, 0)).1 ≤ 2 ∧
    2 < ((epoch_slices c7Ad.time).getD 2 (0, 0)).2 := by
  refine ⟨rfl, rfl, rfl, rfl, by decide, by decide, by decide⟩
